import Mathlib

/-!
# nginx-sso: the signed SSO cookie (`web.go`)

A shallow embedding of the token protocol of `web.go`: the cookie data model
(`SSOConfig`, `SSOCookiePayload`, `SSOCookie`), `CreateHash`, `VerifyCookie`,
`CreateCookie` and `AuthHandler`, followed by the properties proved of them.

Conventions of the embedding.

* A Go `string` / `[]byte` is a list of bytes (`Bytes`); a byte is a natural
  number below 256.
* `int32` values are integers; the conversion `int32(x)` of a 64-bit value is
  `toInt32` (two's complement truncation).
* `time.Now().Unix()` is the parameter `now` of the functions that read the
  clock; `time.Now().Add(10 * time.Second).Unix()` is `now + 10`.
* A pointer that may be nil is an `Option`; a nil pointer dereference is the
  result `Run.panic`.
* SHA-1 and ECDSA (`crypto/sha1`, `crypto/ecdsa`) are parameters: they are the
  fields of `Primitives`, and every theorem holds for whatever functions are
  supplied, under the hypotheses it names. Two instances serve to evaluate the
  definitions: a stand-in (`demoPrimitives`), and SHA-1 with ECDSA over P-256
  (`p256.primitives`).
* The other functions of Go's standard library that `web.go` calls on the
  cookie (`fmt.Sprintf("%d", ·)`, `url.QueryEscape`, `url.QueryUnescape`,
  `json.Marshal`, `json.Unmarshal`, and what these use of `encoding/base64`,
  `unicode/utf8`, `unicode/utf16`, `math/big`, `strconv`) are not part of the
  repository. They are modelled here after the library's documented behaviour,
  restricted to the types that occur in `SSOCookie`; each model names the library
  function it stands for.
* Logging and the HTTP plumbing (`http.Handle`, flags, key files) are left out.
-/

namespace NginxSSO

/-! ## Bytes and strings -/

/-- A Go byte. -/
abbrev Byte := Fin 256

/-- A Go `string` or `[]byte`: a finite sequence of bytes. -/
abbrev Bytes := List Byte

/-- The bytes of an ASCII string literal. -/
def ascii (s : String) : Bytes := s.toList.map (fun c => Fin.ofNat c.toNat)

/-! ## Machine integers -/

/-- Go's conversion `int32(x)` of an integer `x`: the value in
`[-2^31, 2^31)` congruent to `x` modulo `2^32`. -/
def toInt32 (x : Int) : Int := (x + 2147483648) % 4294967296 - 2147483648

/-- The ASCII digit of `d % 10`. -/
def digitChar (d : Nat) : Byte := Fin.ofNat (48 + d % 10)

/-- Base-10 digits of `n`, most significant first; `fuel` bounds the number of
digits produced (`n + 1` is always enough). -/
def decimalDigits : Nat → Nat → Bytes
  | 0, _ => []
  | fuel + 1, n =>
    if n < 10 then [digitChar n] else decimalDigits fuel (n / 10) ++ [digitChar n]

/-- Base-10 rendering of a natural number. -/
def decimalNat (n : Nat) : Bytes := decimalDigits (n + 1) n

/-- The output of `fmt.Sprintf("%d", x)`: the base-10 rendering of `x`, with a
leading `-` (byte 45) when `x` is negative. -/
def decimal (x : Int) : Bytes :=
  if x < 0 then 45 :: decimalNat x.natAbs else decimalNat x.natAbs

/-- The number a run of ASCII digits denotes in base 10. -/
def digitsValue (l : Bytes) : Nat := l.foldl (fun a c => 10 * a + (c.val - 48)) 0

/-! ## Data model (`typedefs` of `web.go`) -/

/-- An ECDSA public key (`ecdsa.PublicKey`, the curve left out). -/
structure PublicKey where
  X : Int
  Y : Int
deriving DecidableEq, Repr

/-- An ECDSA private key (`ecdsa.PrivateKey`): the public key and the scalar `D`. -/
structure PrivateKey where
  pub : PublicKey
  D : Int
deriving DecidableEq, Repr

/-- The struct `SSOConfig`. The field `pubkey`, a `crypto.PublicKey` that
`VerifyCookie` asserts to be an `*ecdsa.PublicKey`, holds an ECDSA key. -/
structure SSOConfig where
  port : Int
  IPHeader : Bytes
  pubkey : PublicKey
  privkey : PrivateKey
deriving DecidableEq, Repr

/-- The struct `SSOCookiePayload`. -/
structure SSOCookiePayload where
  /-- Username -/
  U : Bytes
deriving DecidableEq, Repr

/-- The struct `SSOCookie`. `H` is `none` for a nil slice. -/
structure SSOCookie where
  /-- ECDSA-Signature R -/
  R : Int
  /-- ECDSA-Signature S -/
  S : Int
  /-- Hash over payload and expiry -/
  H : Option Bytes
  /-- Expiry timestamp -/
  E : Int
  /-- Payload -/
  P : SSOCookiePayload
deriving DecidableEq, Repr

/-- The value `new(SSOCookie)` points to: every field zero. -/
def SSOCookie.zero : SSOCookie := { R := 0, S := 0, H := none, E := 0, P := { U := [] } }

/-- The library functions `web.go` calls for hashing and signing.
`sha1 b` is the SHA-1 digest of `b`; `ecdsaSign priv rnd d` is the pair
`(r, s)` that `ecdsa.Sign(rand.Reader, priv, d)` returns when the reader yields
the randomness `rnd` (the error result, which `CreateCookie` discards, is taken
to be nil); `ecdsaVerify pub d r s` is `ecdsa.Verify(pub, d, r, s)`. -/
structure Primitives where
  sha1 : Bytes → Bytes
  ecdsaSign : PrivateKey → Nat → Bytes → Int × Int
  ecdsaVerify : PublicKey → Bytes → Int → Int → Bool

/-- The result of running code that may dereference a nil pointer. -/
inductive Run (α : Type) where
  | ret (v : α)
  | panic
deriving DecidableEq, Repr

deriving instance DecidableEq for Except

/-! ## `CreateHash`, `VerifyCookie`, `CreateCookie` -/

/-- The state of a `hash.Hash`: the bytes written so far. -/
abbrev HashState := Bytes

/-- The method `hash.Write(p)`. -/
def HashState.Write (h : HashState) (p : Bytes) : HashState := h ++ p

/-- The bytes `CreateHash` has written to the hash when it calls `Sum`. -/
def CreateHash.written (ip : Bytes) (sso_cookie : SSOCookie) : Bytes :=
  let hash : HashState := []
  let hash := hash.Write ip
  let hash := hash.Write (decimal sso_cookie.E)
  let hash := hash.Write sso_cookie.P.U
  hash

/-- The function `CreateHash` (for a non-nil cookie). -/
def CreateHash (prim : Primitives) (ip : Bytes) (sso_cookie : SSOCookie) : Bytes :=
  prim.sha1 (CreateHash.written ip sso_cookie)

/-- The function `VerifyCookie`, run when `time.Now().Unix()` is `now`.
`sso_cookie` is the pointer argument, `none` for nil. -/
def VerifyCookie (prim : Primitives) (now : Int) (ip : Bytes) (sso_cookie : Option SSOCookie)
    (config : SSOConfig) : Run Bool :=
  match sso_cookie with
  | none => Run.panic
  | some c =>
    if toInt32 now > c.E then Run.ret false
    else
      let slice := CreateHash prim ip c
      let sign_ok := prim.ecdsaVerify config.pubkey slice c.R c.S
      if !sign_ok then Run.ret false
      else Run.ret true

/-- The cookie `CreateCookie` has assembled when it serialises it, run when
`time.Now().Unix()` is `now` and the random reader yields `rnd`. -/
def CreateCookie.sso_cookie (prim : Primitives) (now : Int) (rnd : Nat) (ip : Bytes)
    (payload : SSOCookiePayload) (config : SSOConfig) : SSOCookie :=
  let expire := toInt32 (now + 10)
  let sso_cookie : SSOCookie := { SSOCookie.zero with E := expire, P := payload }
  let slice := CreateHash prim ip sso_cookie
  let sig := prim.ecdsaSign config.privkey rnd slice
  { sso_cookie with R := sig.1, S := sig.2, H := some slice }


/-! ## `net/url`: query escaping

Models of `url.QueryEscape` and `url.QueryUnescape` of Go's standard library
(the functions `escape`, `unescape`, `shouldEscape`, `ishex`, `unhex` of
`net/url`, in the mode `encodeQueryComponent`). -/

namespace url

/-- The function `ishex`: `c` is a hexadecimal digit. -/
def ishex (c : Byte) : Bool :=
  (48 ≤ c.val && c.val ≤ 57) || (97 ≤ c.val && c.val ≤ 102) || (65 ≤ c.val && c.val ≤ 70)

/-- The function `unhex`: the value of a hexadecimal digit, 0 for other bytes. -/
def unhex (c : Byte) : Nat :=
  if 48 ≤ c.val ∧ c.val ≤ 57 then c.val - 48
  else if 97 ≤ c.val ∧ c.val ≤ 102 then c.val - 97 + 10
  else if 65 ≤ c.val ∧ c.val ≤ 70 then c.val - 65 + 10
  else 0

/-- The table `upperhex = "0123456789ABCDEF"`, indexed by a nibble. -/
def upperhex (n : Nat) : Byte :=
  if n % 16 < 10 then Fin.ofNat (48 + n % 16) else Fin.ofNat (55 + n % 16)

/-- The function `shouldEscape(c, encodeQueryComponent)`: everything but the
unreserved characters (letters, digits, `-`, `_`, `.`, `~`) is escaped. -/
def shouldEscape (c : Byte) : Bool :=
  if (97 ≤ c.val ∧ c.val ≤ 122) ∨ (65 ≤ c.val ∧ c.val ≤ 90) ∨ (48 ≤ c.val ∧ c.val ≤ 57) then false
  else if c.val = 45 ∨ c.val = 95 ∨ c.val = 46 ∨ c.val = 126 then false
  else true

/-- The function `url.QueryEscape`: a space becomes `+`, a byte that
`shouldEscape` becomes `%XX` (upper-case hexadecimal), other bytes stay. -/
def QueryEscape : Bytes → Bytes
  | [] => []
  | c :: s =>
    if c.val = 32 then 43 :: QueryEscape s
    else if shouldEscape c then 37 :: upperhex (c.val / 16) :: upperhex (c.val % 16) :: QueryEscape s
    else c :: QueryEscape s

/-- The first loop of `unescape`: every `%` is followed by two hexadecimal
digits. -/
def unescapeValid : Bytes → Bool
  | [] => true
  | c :: s =>
    if c.val = 37 then
      match s with
      | a :: b :: s' => ishex a && ishex b && unescapeValid s'
      | _ => false
    else unescapeValid s

/-- The second loop of `unescape`: `%XX` becomes the byte `XX`, `+` a space. -/
def unescapeBuild : Bytes → Bytes
  | [] => []
  | c :: s =>
    if c.val = 37 then
      match s with
      | a :: b :: s' => Fin.ofNat (unhex a * 16 + unhex b) :: unescapeBuild s'
      | _ => []
    else if c.val = 43 then 32 :: unescapeBuild s
    else c :: unescapeBuild s

/-- The error value `url.EscapeError`. -/
inductive EscapeError where
  | invalidEscape
deriving DecidableEq, Repr

/-- The function `url.QueryUnescape`: the unescaped string and a nil error, or
the empty string and an `EscapeError` when a `%` is not followed by two
hexadecimal digits. -/
def QueryUnescape (s : Bytes) : Bytes × Option EscapeError :=
  if unescapeValid s then (unescapeBuild s, none) else ([], some EscapeError.invalidEscape)

end url

/-! ## `unicode/utf8`, `unicode/utf16`, `encoding/base64`

Models of the functions of Go's standard library that the JSON codec uses.
Bit operations are written arithmetically: `x & (2^k - 1)` is `x % 2^k`,
`x >> k` is `x / 2^k`, and an `|` of disjoint bit fields is a sum. -/

namespace utf8

/-- The constant `utf8.RuneError` (U+FFFD). -/
def RuneError : Nat := 65533

/-- The function `utf8.DecodeRune`: the first rune of `p` and its width in
bytes; `(RuneError, 1)` when `p` does not start with a well-formed sequence
and `(RuneError, 0)` when `p` is empty. The lead byte fixes the width and the
range accepted for the second byte (the tables `first` and `acceptRanges`). -/
def DecodeRune (p : Bytes) : Nat × Nat :=
  match p with
  | [] => (RuneError, 0)
  | p0 :: rest =>
    if p0.val < 128 then (p0.val, 1)
    else if p0.val < 194 ∨ 244 < p0.val then (RuneError, 1)
    else
      let lo := if p0.val = 224 then 160 else if p0.val = 240 then 144 else 128
      let hi := if p0.val = 237 then 159 else if p0.val = 244 then 143 else 191
      match rest with
      | [] => (RuneError, 1)
      | b1 :: rest1 =>
        if b1.val < lo ∨ hi < b1.val then (RuneError, 1)
        else if p0.val < 224 then (p0.val % 32 * 64 + b1.val % 64, 2)
        else
          match rest1 with
          | [] => (RuneError, 1)
          | b2 :: rest2 =>
            if b2.val < 128 ∨ 191 < b2.val then (RuneError, 1)
            else if p0.val < 240 then (p0.val % 16 * 4096 + b1.val % 64 * 64 + b2.val % 64, 3)
            else
              match rest2 with
              | [] => (RuneError, 1)
              | b3 :: _ =>
                if b3.val < 128 ∨ 191 < b3.val then (RuneError, 1)
                else (p0.val % 8 * 262144 + b1.val % 64 * 4096 + b2.val % 64 * 64 + b3.val % 64, 4)

/-- The function `utf8.EncodeRune`: the UTF-8 encoding of the rune `r`; a
surrogate or a value above U+10FFFF is encoded as `RuneError`. -/
def EncodeRune (r : Nat) : Bytes :=
  if r ≤ 127 then [Fin.ofNat r]
  else if r ≤ 2047 then [Fin.ofNat (192 + r / 64), Fin.ofNat (128 + r % 64)]
  else if 1114111 < r ∨ (55296 ≤ r ∧ r ≤ 57343) then [239, 191, 189]
  else if r ≤ 65535 then
    [Fin.ofNat (224 + r / 4096), Fin.ofNat (128 + r / 64 % 64), Fin.ofNat (128 + r % 64)]
  else
    [Fin.ofNat (240 + r / 262144), Fin.ofNat (128 + r / 4096 % 64),
     Fin.ofNat (128 + r / 64 % 64), Fin.ofNat (128 + r % 64)]

/-- The function `utf8.Valid`: `p` consists of well-formed sequences only.
`fuel` bounds the number of runes (`p.length` is enough). -/
def validAux : Nat → Bytes → Bool
  | 0, p => p.isEmpty
  | _ + 1, [] => true
  | fuel + 1, c :: rest =>
    if (DecodeRune (c :: rest)).1 = RuneError ∧ (DecodeRune (c :: rest)).2 = 1 then false
    else validAux fuel ((c :: rest).drop (DecodeRune (c :: rest)).2)

/-- The function `utf8.Valid`. -/
def Valid (p : Bytes) : Bool := validAux p.length p

end utf8

namespace utf16

/-- The function `utf16.IsSurrogate`. -/
def IsSurrogate (r : Nat) : Bool := 55296 ≤ r && r < 57344

/-- The function `utf16.DecodeRune`: the rune of a surrogate pair, U+FFFD when
`(r1, r2)` is not a high surrogate followed by a low one. -/
def DecodeRune (r1 r2 : Nat) : Nat :=
  if 55296 ≤ r1 ∧ r1 < 56320 ∧ 56320 ≤ r2 ∧ r2 < 57344 then
    (r1 - 55296) * 1024 + (r2 - 56320) + 65536
  else 65533

end utf16

namespace base64

/-- The alphabet of `base64.StdEncoding`: `A-Z`, `a-z`, `0-9`, `+`, `/`. -/
def encodeStd (n : Nat) : Byte :=
  if n % 64 < 26 then Fin.ofNat (65 + n % 64)
  else if n % 64 < 52 then Fin.ofNat (97 + (n % 64 - 26))
  else if n % 64 < 62 then Fin.ofNat (48 + (n % 64 - 52))
  else if n % 64 = 62 then 43
  else 47

/-- The table `decodeMap` of `base64.StdEncoding`: the value of an alphabet
byte, `none` for the bytes the table maps to `0xff`. -/
def decodeMap (c : Byte) : Option Nat :=
  if 65 ≤ c.val ∧ c.val ≤ 90 then some (c.val - 65)
  else if 97 ≤ c.val ∧ c.val ≤ 122 then some (c.val - 97 + 26)
  else if 48 ≤ c.val ∧ c.val ≤ 57 then some (c.val - 48 + 52)
  else if c.val = 43 then some 62
  else if c.val = 47 then some 63
  else none

/-- The function `StdEncoding.EncodeToString`: three bytes become four
alphabet bytes; a last group of one or two bytes is padded with `=`. -/
def EncodeToString : Bytes → Bytes
  | [] => []
  | [a] => [encodeStd (a.val / 4), encodeStd (a.val % 4 * 16), 61, 61]
  | [a, b] =>
    [encodeStd (a.val / 4), encodeStd (a.val % 4 * 16 + b.val / 16),
     encodeStd (b.val % 16 * 4), 61]
  | a :: b :: c :: rest =>
    encodeStd (a.val / 4) :: encodeStd (a.val % 4 * 16 + b.val / 16) ::
      encodeStd (b.val % 16 * 4 + c.val / 64) :: encodeStd (c.val % 64) :: EncodeToString rest

/-- A line break, which the decoder skips. -/
def isNewline (c : Byte) : Bool := c.val = 10 || c.val = 13

/-- The bytes a quantum of `j` sextets `dbuf` decodes to (`j` is 2, 3 or 4):
the top `j - 1` bytes of the 24-bit value. -/
def quantumBytes (dbuf : List Nat) : Bytes :=
  let val := dbuf.getD 0 0 * 262144 + dbuf.getD 1 0 * 4096 + dbuf.getD 2 0 * 64 + dbuf.getD 3 0
  ([Fin.ofNat (val / 65536), Fin.ofNat (val / 256), Fin.ofNat val] : Bytes).take (dbuf.length - 1)

/-- The function `StdEncoding.Decode` (`decodeQuantum` run to the end of the
input), `none` for a `CorruptInputError`. `dbuf` holds the sextets of the
quantum being read. Line breaks are skipped; padding must complete the
quantum and only line breaks may follow it. -/
def decodeLoop : Bytes → List Nat → Option Bytes
  | [], dbuf => if dbuf.length = 0 then some [] else none
  | c :: src, dbuf =>
    match decodeMap c with
    | some v =>
      if dbuf.length = 3 then (decodeLoop src []).map (fun t => quantumBytes (dbuf ++ [v]) ++ t)
      else decodeLoop src (dbuf ++ [v])
    | none =>
      if isNewline c then decodeLoop src dbuf
      else if c.val ≠ 61 then none
      else if dbuf.length < 2 then none
      else if dbuf.length = 2 then
        match src.dropWhile isNewline with
        | [] => none
        | c2 :: src2 =>
          if c2.val ≠ 61 then none
          else if (src2.dropWhile isNewline).isEmpty then some (quantumBytes dbuf)
          else none
      else if (src.dropWhile isNewline).isEmpty then some (quantumBytes dbuf)
      else none

/-- The function `StdEncoding.DecodeString`. -/
def DecodeString (s : Bytes) : Option Bytes := decodeLoop s []

end base64

/-! ## `encoding/json`

A model of `json.Marshal` and `json.Unmarshal` of Go's standard library for
values of type `SSOCookie`. `Unmarshal` first checks that the input is one
well-formed JSON text (`checkValid`), then stores the value it denotes into
the target by the target's type. The model splits the first step into a
tokenizer and a parser that builds the value as a tree, and follows the
decoder's rules for each type that occurs in `SSOCookie`:
`big.Int` (`UnmarshalJSON`), `[]byte`, `int32`, `string`, struct, pointer.
Every syntax error is the one error `syntaxError`. The loops that advance by
a varying number of bytes recurse on a step bound (`fuel`); each is called
with the length of its input, and each step consumes at least one byte. -/

namespace json

/-! ### Encoding -/

/-- The table `hex = "0123456789abcdef"`. -/
def hex (n : Nat) : Byte :=
  if n % 16 < 10 then Fin.ofNat (48 + n % 16) else Fin.ofNat (87 + n % 16)

/-- The table `htmlSafeSet`: the ASCII bytes written to a JSON string as they
are; the others are the control characters, `"`, `\`, `<`, `>` and `&`. -/
def htmlSafeSet (b : Byte) : Bool :=
  32 ≤ b.val && b.val < 128 && b.val ≠ 34 && b.val ≠ 92 && b.val ≠ 60 && b.val ≠ 62 && b.val ≠ 38

/-- What `appendString` writes for an ASCII byte outside `htmlSafeSet`. -/
def escapeByte (b : Byte) : Bytes :=
  if b.val = 92 ∨ b.val = 34 then [92, b]
  else if b.val = 8 then [92, 98]
  else if b.val = 12 then [92, 102]
  else if b.val = 10 then [92, 110]
  else if b.val = 13 then [92, 114]
  else if b.val = 9 then [92, 116]
  else [92, 117, 48, 48, hex (b.val / 16), hex (b.val % 16)]

/-- The loop of `appendString(dst, src, escapeHTML = true)`: the contents of
the JSON string for `src`. A byte that starts no well-formed UTF-8 sequence is
written as `\ufffd`; U+2028 and U+2029 are written as `\u2028` and `\u2029`.
`fuel` bounds the number of steps (`src.length` is enough). -/
def appendStringAux : Nat → Bytes → Bytes
  | 0, _ => []
  | _ + 1, [] => []
  | fuel + 1, b :: rest =>
    if b.val < 128 then
      if htmlSafeSet b then b :: appendStringAux fuel rest
      else escapeByte b ++ appendStringAux fuel rest
    else
      let c := (utf8.DecodeRune (b :: rest)).1
      let size := (utf8.DecodeRune (b :: rest)).2
      if c = utf8.RuneError ∧ size = 1 then
        [92, 117, 102, 102, 102, 100] ++ appendStringAux fuel rest
      else if c = 8232 ∨ c = 8233 then
        [92, 117, 50, 48, 50, hex (c % 16)] ++ appendStringAux fuel ((b :: rest).drop size)
      else (b :: rest).take size ++ appendStringAux fuel ((b :: rest).drop size)

/-- The string a JSON string written by `appendString` denotes: `src` with
every byte that starts no well-formed UTF-8 sequence replaced by U+FFFD (the
bytes `EF BF BD`). `fuel` bounds the number of steps (`src.length` is enough). -/
def coerceAux : Nat → Bytes → Bytes
  | 0, _ => []
  | _ + 1, [] => []
  | fuel + 1, b :: rest =>
    if b.val < 128 then b :: coerceAux fuel rest
    else if (utf8.DecodeRune (b :: rest)).1 = utf8.RuneError ∧
        (utf8.DecodeRune (b :: rest)).2 = 1 then
      [239, 191, 189] ++ coerceAux fuel rest
    else
      (b :: rest).take (utf8.DecodeRune (b :: rest)).2 ++
        coerceAux fuel ((b :: rest).drop (utf8.DecodeRune (b :: rest)).2)

/-- The string `src` coerced to valid UTF-8, as `json.Marshal` does: every
byte that starts no well-formed sequence becomes U+FFFD. -/
def coerceUTF8 (src : Bytes) : Bytes := coerceAux src.length src

/-- The function `appendString`: `src` as a quoted JSON string. -/
def appendString (src : Bytes) : Bytes :=
  34 :: appendStringAux src.length src ++ [34]

/-- The method `(*big.Int).MarshalJSON`: the decimal rendering. -/
def marshalBigInt (x : Int) : Bytes := decimal x

/-- What the encoder writes for a `[]byte`: `null` for a nil slice, else the
base64 rendering as a string. -/
def marshalBytes : Option Bytes → Bytes
  | none => ascii "null"
  | some b => 34 :: base64.EncodeToString b ++ [34]

/-- The function `json.Marshal` applied to a `*SSOCookie`: an object with the
fields in the order of the struct declaration. -/
def Marshal (c : SSOCookie) : Bytes :=
  ascii "\x7b\"R\":" ++ marshalBigInt c.R ++
  ascii ",\"S\":" ++ marshalBigInt c.S ++
  ascii ",\"H\":" ++ marshalBytes c.H ++
  ascii ",\"E\":" ++ decimal c.E ++
  ascii ",\"P\":\x7b\"U\":" ++ appendString c.P.U ++ ascii "\x7d\x7d"

/-! ### Scanning -/

/-- The tokens of a JSON text. A string token holds the unquoted string. -/
inductive Token where
  | beginObject
  | endObject
  | beginArray
  | endArray
  | colon
  | comma
  | null
  | bool (b : Bool)
  | number (raw : Bytes)
  | string (s : Bytes)
deriving DecidableEq, Repr

/-- The function `isSpace` of the scanner. -/
def isSpace (c : Byte) : Bool := c.val = 32 || c.val = 9 || c.val = 13 || c.val = 10

/-- An ASCII digit. -/
def isDigit (c : Byte) : Bool := 48 ≤ c.val && c.val ≤ 57

/-- The scanner inside a string (`stateInString`, `stateInStringEsc`,
`stateInStringEscU`...): from the bytes after the opening quote, the raw
contents up to the closing quote and the bytes after it. A control character,
an unknown escape, or the end of input before the closing quote is an error. -/
def scanString : Bytes → Option (Bytes × Bytes)
  | [] => none
  | c :: s =>
    if c.val = 34 then some ([], s)
    else if c.val = 92 then
      match s with
      | [] => none
      | e :: s1 =>
        if e.val = 98 ∨ e.val = 102 ∨ e.val = 110 ∨ e.val = 114 ∨ e.val = 116 ∨
            e.val = 92 ∨ e.val = 47 ∨ e.val = 34 then
          (scanString s1).map (fun p => (c :: e :: p.1, p.2))
        else if e.val = 117 then
          match s1 with
          | h1 :: h2 :: h3 :: h4 :: s2 =>
            if url.ishex h1 ∧ url.ishex h2 ∧ url.ishex h3 ∧ url.ishex h4 then
              (scanString s2).map (fun p => (c :: e :: h1 :: h2 :: h3 :: h4 :: p.1, p.2))
            else none
          | _ => none
        else none
    else if c.val < 32 then none
    else (scanString s).map (fun p => (c :: p.1, p.2))

/-- The function `getu4`: the rune of a `\uXXXX` at the start of `s`, `none`
(Go: -1) when `s` does not start with one. -/
def getu4 (s : Bytes) : Option Nat :=
  match s with
  | c :: u :: h1 :: h2 :: h3 :: h4 :: _ =>
    if c.val = 92 ∧ u.val = 117 ∧ url.ishex h1 ∧ url.ishex h2 ∧ url.ishex h3 ∧ url.ishex h4 then
      some (((url.unhex h1 * 16 + url.unhex h2) * 16 + url.unhex h3) * 16 + url.unhex h4)
    else none
  | _ => none

/-- The loop of `unquoteBytes` over the contents of a string: escapes are
resolved, a `\u` surrogate pair becomes one rune and a lone surrogate U+FFFD,
and the bytes that are not ASCII are decoded as UTF-8 and encoded again, which
turns every byte that starts no well-formed sequence into U+FFFD. `none` is the
result `ok = false`. `fuel` bounds the number of steps (`s.length` is enough). -/
def unquoteAux : Nat → Bytes → Option Bytes
  | 0, s => if s.isEmpty then some [] else none
  | _ + 1, [] => some []
  | fuel + 1, c :: rest =>
    if c.val = 92 then
      match rest with
      | [] => none
      | e :: rest1 =>
        if e.val = 34 ∨ e.val = 92 ∨ e.val = 47 ∨ e.val = 39 then
          (unquoteAux fuel rest1).map (fun t => e :: t)
        else if e.val = 98 then (unquoteAux fuel rest1).map (fun t => 8 :: t)
        else if e.val = 102 then (unquoteAux fuel rest1).map (fun t => 12 :: t)
        else if e.val = 110 then (unquoteAux fuel rest1).map (fun t => 10 :: t)
        else if e.val = 114 then (unquoteAux fuel rest1).map (fun t => 13 :: t)
        else if e.val = 116 then (unquoteAux fuel rest1).map (fun t => 9 :: t)
        else if e.val = 117 then
          match getu4 (c :: rest) with
          | none => none
          | some rr =>
            let r6 := rest1.drop 4
            if utf16.IsSurrogate rr then
              match getu4 r6 with
              | some rr1 =>
                if utf16.DecodeRune rr rr1 ≠ 65533 then
                  (unquoteAux fuel (r6.drop 6)).map
                    (fun t => utf8.EncodeRune (utf16.DecodeRune rr rr1) ++ t)
                else (unquoteAux fuel r6).map (fun t => utf8.EncodeRune 65533 ++ t)
              | none => (unquoteAux fuel r6).map (fun t => utf8.EncodeRune 65533 ++ t)
            else (unquoteAux fuel r6).map (fun t => utf8.EncodeRune rr ++ t)
        else none
    else if c.val = 34 ∨ c.val < 32 then none
    else if c.val < 128 then (unquoteAux fuel rest).map (fun t => c :: t)
    else
      (unquoteAux fuel ((c :: rest).drop (utf8.DecodeRune (c :: rest)).2)).map
        (fun t => utf8.EncodeRune (utf8.DecodeRune (c :: rest)).1 ++ t)

/-- The function `unquoteBytes`, applied to the contents of a string. -/
def unquote (s : Bytes) : Option Bytes := unquoteAux s.length s

/-- The leading run of digits of `s` and what follows it. -/
def takeDigits : Bytes → Bytes × Bytes
  | [] => ([], [])
  | c :: s => if isDigit c then ((c :: (takeDigits s).1), (takeDigits s).2) else ([], c :: s)

/-- The scanner's states for the exponent of a number (`stateE`, `stateESign`,
`stateE0`): after `e` or `E`, an optional sign and at least one digit. -/
def scanExponent (s : Bytes) : Option (Bytes × Bytes) :=
  match s with
  | [] => some ([], [])
  | e :: s1 =>
    if e.val = 101 ∨ e.val = 69 then
      match s1 with
      | [] => none
      | g :: s2 =>
        if g.val = 43 ∨ g.val = 45 then
          if (takeDigits s2).1.isEmpty then none
          else some (e :: g :: (takeDigits s2).1, (takeDigits s2).2)
        else if (takeDigits s1).1.isEmpty then none
        else some (e :: (takeDigits s1).1, (takeDigits s1).2)
    else some ([], s)

/-- The scanner's states for the fraction of a number (`stateDot`,
`stateDot0`) and the exponent after it. -/
def scanFraction (s : Bytes) : Option (Bytes × Bytes) :=
  match s with
  | [] => some ([], [])
  | d :: s1 =>
    if d.val = 46 then
      if (takeDigits s1).1.isEmpty then none
      else (scanExponent (takeDigits s1).2).map (fun p => (d :: (takeDigits s1).1 ++ p.1, p.2))
    else scanExponent s

/-- The scanner's states for the integer part of a number (`state0`,
`state1`) and what follows it: `0`, or a digit `1`-`9` and more digits. -/
def scanInteger (s : Bytes) : Option (Bytes × Bytes) :=
  match s with
  | [] => none
  | c :: s1 =>
    if c.val = 48 then (scanFraction s1).map (fun p => (c :: p.1, p.2))
    else if 49 ≤ c.val ∧ c.val ≤ 57 then
      (scanFraction (takeDigits s1).2).map (fun p => (c :: (takeDigits s1).1 ++ p.1, p.2))
    else none

/-- The scanner over a number (`stateNeg`, `state0`, `state1`, ...): the text
of the number at the start of `s` and the bytes after it. -/
def scanNumber (s : Bytes) : Option (Bytes × Bytes) :=
  match s with
  | [] => none
  | c :: s1 =>
    if c.val = 45 then (scanInteger s1).map (fun p => (c :: p.1, p.2))
    else scanInteger s

/-- The rest of `s` after the bytes `lit`, `none` when `s` does not start
with them (the scanner's states for the literals `true`, `false`, `null`). -/
def scanLiteral (lit s : Bytes) : Option Bytes :=
  if lit.isPrefixOf s then some (s.drop lit.length) else none

/-- The token that starts with the byte `c` (not white space) followed by
`s`, and the bytes after the token; `none` where the scanner reports a syntax
error inside the token. -/
def scanToken (c : Byte) (s : Bytes) : Option (Token × Bytes) :=
  if c.val = 123 then some (Token.beginObject, s)
  else if c.val = 125 then some (Token.endObject, s)
  else if c.val = 91 then some (Token.beginArray, s)
  else if c.val = 93 then some (Token.endArray, s)
  else if c.val = 58 then some (Token.colon, s)
  else if c.val = 44 then some (Token.comma, s)
  else if c.val = 34 then
    (scanString s).bind (fun p => (unquote p.1).map (fun str => (Token.string str, p.2)))
  else if c.val = 45 ∨ isDigit c then
    (scanNumber (c :: s)).map (fun p => (Token.number p.1, p.2))
  else if c.val = 116 then
    (scanLiteral [114, 117, 101] s).map (fun rest => (Token.bool true, rest))
  else if c.val = 102 then
    (scanLiteral [97, 108, 115, 101] s).map (fun rest => (Token.bool false, rest))
  else if c.val = 110 then
    (scanLiteral [117, 108, 108] s).map (fun rest => (Token.null, rest))
  else none

/-- The tokens of `s`, white space between them skipped; `none` where the
scanner reports a syntax error inside a token. `fuel` bounds the number of
steps (`s.length` is enough). -/
def tokenize : Nat → Bytes → Option (List Token)
  | 0, s => if s.isEmpty then some [] else none
  | _ + 1, [] => some []
  | fuel + 1, c :: s =>
    if isSpace c then tokenize fuel s
    else
      match scanToken c s with
      | none => none
      | some (t, rest) => (tokenize fuel rest).map (fun ts => t :: ts)

/-! ### Parsing -/

/-- A JSON value. A number keeps its text. -/
inductive Value where
  | null
  | bool (b : Bool)
  | number (raw : Bytes)
  | string (s : Bytes)
  | array (elems : List Value)
  | object (members : List (Bytes × Value))

/-- The constant `maxNestingDepth` of the scanner. -/
def maxNestingDepth : Nat := 10000

mutual
/-- One value at the start of the tokens, `depth` arrays and objects deep. -/
def parseValue : Nat → Nat → List Token → Option (Value × List Token)
  | 0, _, _ => none
  | _ + 1, _, [] => none
  | fuel + 1, depth, t :: ts =>
    match t with
    | Token.null => some (Value.null, ts)
    | Token.bool b => some (Value.bool b, ts)
    | Token.number raw => some (Value.number raw, ts)
    | Token.string s => some (Value.string s, ts)
    | Token.beginArray =>
      if maxNestingDepth < depth + 1 then none
      else
        match ts with
        | Token.endArray :: ts1 => some (Value.array [], ts1)
        | _ => (parseElements fuel (depth + 1) ts).map (fun p => (Value.array p.1, p.2))
    | Token.beginObject =>
      if maxNestingDepth < depth + 1 then none
      else
        match ts with
        | Token.endObject :: ts1 => some (Value.object [], ts1)
        | _ => (parseMembers fuel (depth + 1) ts).map (fun p => (Value.object p.1, p.2))
    | _ => none
/-- The elements of a non-empty array, up to and including its `]`. -/
def parseElements : Nat → Nat → List Token → Option (List Value × List Token)
  | 0, _, _ => none
  | fuel + 1, depth, ts =>
    match parseValue fuel depth ts with
    | none => none
    | some (v, ts1) =>
      match ts1 with
      | Token.comma :: ts2 => (parseElements fuel depth ts2).map (fun p => (v :: p.1, p.2))
      | Token.endArray :: ts2 => some ([v], ts2)
      | _ => none
/-- The members of a non-empty object, up to and including its closing brace. -/
def parseMembers : Nat → Nat → List Token → Option (List (Bytes × Value) × List Token)
  | 0, _, _ => none
  | fuel + 1, depth, ts =>
    match ts with
    | Token.string key :: Token.colon :: ts1 =>
      match parseValue fuel depth ts1 with
      | none => none
      | some (v, ts2) =>
        match ts2 with
        | Token.comma :: ts3 => (parseMembers fuel depth ts3).map (fun p => ((key, v) :: p.1, p.2))
        | Token.endObject :: ts3 => some ([(key, v)], ts3)
        | _ => none
    | _ => none
end

/-- The function `checkValid` together with the value the text denotes:
`none` for a syntax error (an empty text, a malformed token, a malformed
structure, nesting deeper than `maxNestingDepth`, or anything but white space
after the value). -/
def parse (data : Bytes) : Option Value :=
  match tokenize data.length data with
  | none => none
  | some ts =>
    match parseValue (ts.length + 1) 0 ts with
    | some (v, []) => some v
    | _ => none

end json

namespace json

/-! ### Decoding into `**SSOCookie` -/

/-- The errors `json.Unmarshal` returns. -/
inductive Error where
  /-- The text is not well-formed JSON (`*json.SyntaxError`). -/
  | syntaxError
  /-- A JSON value does not fit the Go type (`*json.UnmarshalTypeError`). -/
  | unmarshalTypeError
  /-- The text is not an integer (`math/big: cannot unmarshal ... into a *big.Int`). -/
  | bigIntError
  /-- A string is not base64 (`base64.CorruptInputError`). -/
  | corruptInputError
deriving DecidableEq, Repr

/-- The integer a JSON number denotes when its text is an optional `-` and
digits only (`strconv.ParseInt(s, 10, 64)`, `(*big.Int).UnmarshalText`);
`none` when the text has a fraction or an exponent. -/
def integerOfText (raw : Bytes) : Option Int :=
  match raw with
  | [] => none
  | c :: s =>
    if c.val = 45 then
      if !s.isEmpty ∧ s.all isDigit then some (-(digitsValue s : Int)) else none
    else if raw.all isDigit then some (digitsValue raw : Int)
    else none

/-- Decoding into a `big.Int` field: `(*big.Int).UnmarshalJSON` gets the text
of the value; it ignores `null` and accepts an integer only. -/
def decodeBigInt (cur : Int) : Value → Except Error Int
  | Value.null => Except.ok cur
  | Value.number raw =>
    match integerOfText raw with
    | some z => Except.ok z
    | none => Except.error Error.bigIntError
  | _ => Except.error Error.bigIntError

/-- Decoding into an `int32` field: `null` leaves it, a number must be an
integer in the range of `int32`. -/
def decodeInt32 (cur : Int) : Value → Except Error Int
  | Value.null => Except.ok cur
  | Value.number raw =>
    match integerOfText raw with
    | some z =>
      if -2147483648 ≤ z ∧ z < 2147483648 then Except.ok z
      else Except.error Error.unmarshalTypeError
    | none => Except.error Error.unmarshalTypeError
  | _ => Except.error Error.unmarshalTypeError

/-- Decoding into a `string` field: `null` leaves it, a string is stored. -/
def decodeString (cur : Bytes) : Value → Except Error Bytes
  | Value.null => Except.ok cur
  | Value.string s => Except.ok s
  | _ => Except.error Error.unmarshalTypeError

/-- Decoding into an element of a `[]byte`: `null` leaves it, a number must
be an integer from 0 to 255. -/
def decodeUint8 (cur : Byte) : Value → Except Error Byte
  | Value.null => Except.ok cur
  | Value.number raw =>
    if raw.all isDigit ∧ digitsValue raw < 256 then Except.ok (Fin.ofNat (digitsValue raw))
    else Except.error Error.unmarshalTypeError
  | _ => Except.error Error.unmarshalTypeError

/-- Decoding the elements of an array into a `[]byte`, from index `i` on.
`backing` holds the contents of the slice's backing array (the slice and the
cells past its length); a cell past `backing` is a fresh one and holds 0. The
element at index `i` is decoded into the cell `i`, whether the slice already
reached that far or is extended over it. -/
def decodeElements (backing : Bytes) : Nat → List Value → Except Error Bytes
  | _, [] => Except.ok []
  | i, v :: vs =>
    match decodeUint8 (backing.getD i 0) v with
    | Except.error e => Except.error e
    | Except.ok b =>
      match decodeElements backing (i + 1) vs with
      | Except.error e => Except.error e
      | Except.ok bs => Except.ok (b :: bs)

/-- Decoding into a `[]byte` field. `cur` is the slice (`none` for nil) and
`spare` the contents of its backing array past its length. The result is the
new slice and its new spare cells. `null` makes the slice nil; a string is
read as base64 into a new array; the empty array gives a new empty slice; any
other array is read element by element over the backing array, and the slice
is cut to the number of elements. -/
def decodeBytes (cur : Option Bytes) (spare : Bytes) :
    Value → Except Error (Option Bytes × Bytes)
  | Value.null => Except.ok (none, [])
  | Value.string s =>
    match base64.DecodeString s with
    | some b => Except.ok (some b, [])
    | none => Except.error Error.corruptInputError
  | Value.array elems =>
    if elems.isEmpty then Except.ok (some [], [])
    else
      match decodeElements (cur.getD [] ++ spare) 0 elems with
      | Except.error e => Except.error e
      | Except.ok bs => Except.ok (some bs, (cur.getD [] ++ spare).drop bs.length)
  | _ => Except.error Error.unmarshalTypeError

/-- The key names the field `U` of `SSOCookiePayload` (the exact name, or the
name up to case). -/
def isKeyU (key : Bytes) : Bool := key = [85] || key = [117]

/-- The members of an object stored into a `SSOCookiePayload`, in order;
a member that names no field is skipped. -/
def decodePayloadMembers (cur : SSOCookiePayload) :
    List (Bytes × Value) → Except Error SSOCookiePayload
  | [] => Except.ok cur
  | (key, v) :: ms =>
    if isKeyU key then
      match decodeString cur.U v with
      | Except.error e => Except.error e
      | Except.ok u => decodePayloadMembers { cur with U := u } ms
    else decodePayloadMembers cur ms

/-- Decoding into the field `P`, a struct: `null` leaves it, an object is
stored member by member. -/
def decodePayload (cur : SSOCookiePayload) : Value → Except Error SSOCookiePayload
  | Value.null => Except.ok cur
  | Value.object members => decodePayloadMembers cur members
  | _ => Except.error Error.unmarshalTypeError

/-- The fields of `SSOCookie`. -/
inductive Field where
  | R
  | S
  | H
  | E
  | P
deriving DecidableEq, Repr

/-- The field of `SSOCookie` a key names: the field with that exact name, or
the one whose name equals the key under Unicode case folding (for `S` that
includes U+017F, the long s, bytes `C5 BF`). -/
def cookieField (key : Bytes) : Option Field :=
  if key = [82] ∨ key = [114] then some Field.R
  else if key = [83] ∨ key = [115] ∨ key = [197, 191] then some Field.S
  else if key = [72] ∨ key = [104] then some Field.H
  else if key = [69] ∨ key = [101] then some Field.E
  else if key = [80] ∨ key = [112] then some Field.P
  else none

/-- One member of an object stored into a `SSOCookie`. `spare` holds the
cells of the backing array of `H` past its length, which a later array for `H`
may bring back into the slice. -/
def decodeCookieMember (cur : SSOCookie) (spare : Bytes) (key : Bytes) (v : Value) :
    Except Error (SSOCookie × Bytes) :=
  match cookieField key with
  | none => Except.ok (cur, spare)
  | some Field.R => (decodeBigInt cur.R v).map (fun x => ({ cur with R := x }, spare))
  | some Field.S => (decodeBigInt cur.S v).map (fun x => ({ cur with S := x }, spare))
  | some Field.H => (decodeBytes cur.H spare v).map (fun x => ({ cur with H := x.1 }, x.2))
  | some Field.E => (decodeInt32 cur.E v).map (fun x => ({ cur with E := x }, spare))
  | some Field.P => (decodePayload cur.P v).map (fun x => ({ cur with P := x }, spare))

/-- The members of an object stored into a `SSOCookie`, in order. -/
def decodeCookieMembers (cur : SSOCookie) (spare : Bytes) :
    List (Bytes × Value) → Except Error SSOCookie
  | [] => Except.ok cur
  | (key, v) :: ms =>
    match decodeCookieMember cur spare key v with
    | Except.error e => Except.error e
    | Except.ok c => decodeCookieMembers c.1 c.2 ms

/-- The function `json.Unmarshal(data, &sso_cookie)`, where `sso_cookie` is a
`*SSOCookie` (`none` for nil): the error, or the value of `sso_cookie`
afterwards. The JSON literal `null` sets the pointer to nil; an object is
stored into the struct it points to (allocated first when the pointer is
nil); any other value is a type error. The slice `H` of the struct passed in
is taken to fill its backing array, as the nil slice of a new struct does. -/
def Unmarshal (data : Bytes) (sso_cookie : Option SSOCookie) : Except Error (Option SSOCookie) :=
  match parse data with
  | none => Except.error Error.syntaxError
  | some Value.null => Except.ok none
  | some (Value.object members) =>
    match decodeCookieMembers (sso_cookie.getD SSOCookie.zero) [] members with
    | Except.error e => Except.error e
    | Except.ok c => Except.ok (some c)
  | some _ => Except.error Error.unmarshalTypeError

end json

/-! ## The handlers -/

/-- What the handlers read of an `*http.Request`: `Cookie name` is the value of
the cookie `name` (`none` for `http.ErrNoCookie`), `HeaderGet key` the result
of `r.Header.Get(key)` (empty when the header is absent). -/
structure Request where
  Cookie : Bytes → Option Bytes
  HeaderGet : Bytes → Bytes

/-- What a handler has written to its `http.ResponseWriter`: the status, the
headers it set (in order) and the body. -/
structure Response where
  status : Nat
  header : List (Bytes × Bytes)
  body : Bytes
deriving DecidableEq, Repr

/-- The function `http.Error(w, error, code)`. -/
def httpError (error : Bytes) (code : Nat) : Response :=
  { status := code,
    header := [(ascii "Content-Type", ascii "text/plain; charset=utf-8"),
               (ascii "X-Content-Type-Options", ascii "nosniff")],
    body := error ++ [10] }

/-- The constant `http.StatusUnauthorized`. -/
def StatusUnauthorized : Nat := 401

/-- One run of a handler: the calls it made to `VerifyCookie` (the ip and the
cookie pointer passed), and the response, or a panic. -/
structure HandlerRun where
  verifyCalls : List (Bytes × Option SSOCookie)
  outcome : Run Response
deriving DecidableEq, Repr

/-- The decoding steps of `AuthHandler` (lines 114-118) on the value of the
cookie: `url.QueryUnescape` with its error dropped, then `json.Unmarshal` into
the address of a pointer to a new `SSOCookie`. The result is the error of
`Unmarshal`, or the pointer `sso_cookie` afterwards. -/
def AuthHandler.decode (cookie_value : Bytes) : Except json.Error (Option SSOCookie) :=
  let json_string := (url.QueryUnescape cookie_value).1
  let sso_cookie : Option SSOCookie := some SSOCookie.zero
  json.Unmarshal json_string sso_cookie

/-- The status of the response a run ended with, `none` for a panic. -/
def HandlerRun.status (h : HandlerRun) : Option Nat :=
  match h.outcome with
  | Run.ret resp => some resp.status
  | Run.panic => none

/-- The handler `AuthHandler(config)` on the request `r`, run when
`time.Now().Unix()` is `now`. (Logging is left out.) -/
def AuthHandler (prim : Primitives) (config : SSOConfig) (now : Int) (r : Request) :
    HandlerRun :=
  match r.Cookie (ascii "sso") with
  | none =>
    { verifyCalls := [], outcome := Run.ret (httpError (ascii "Not logged in") StatusUnauthorized) }
  | some cookie_string =>
    let ip := r.HeaderGet config.IPHeader
    if ip = [] then
      { verifyCalls := [], outcome := Run.ret (httpError (ascii "Not logged in") StatusUnauthorized) }
    else
      match AuthHandler.decode cookie_string with
      | Except.error _ =>
        { verifyCalls := [], outcome := Run.ret (httpError (ascii "Error") StatusUnauthorized) }
      | Except.ok sso_cookie =>
        match VerifyCookie prim now ip sso_cookie config with
        | Run.panic => { verifyCalls := [(ip, sso_cookie)], outcome := Run.panic }
        | Run.ret true =>
          match sso_cookie with
          | none => { verifyCalls := [(ip, sso_cookie)], outcome := Run.panic }
          | some c =>
            { verifyCalls := [(ip, sso_cookie)],
              outcome := Run.ret
                { status := 200,
                  header := [(ascii "Remote-User", c.P.U), (ascii "Remote-Expiry", decimal c.E)],
                  body := ascii "Authorized!\n" } }
        | Run.ret false =>
          { verifyCalls := [(ip, sso_cookie)],
            outcome := Run.ret (httpError (ascii "Not authorized") StatusUnauthorized) }

/-- The function `CreateCookie`, run when `time.Now().Unix()` is `now` and the
random reader yields `rnd`: the cookie as JSON, query-escaped. -/
def CreateCookie (prim : Primitives) (now : Int) (rnd : Nat) (ip : Bytes)
    (payload : SSOCookiePayload) (config : SSOConfig) : Bytes :=
  let sso_cookie := CreateCookie.sso_cookie prim now rnd ip payload config
  let json_string := json.Marshal sso_cookie
  let url_string := url.QueryEscape json_string
  url_string

/-- A request with the cookie `sso` set to `value` and the header
`X-Real-Ip: ip`. -/
def demoRequest (value : Option Bytes) (ip : Bytes) : Request :=
  { Cookie := fun name => if name = ascii "sso" then value else none,
    HeaderGet := fun key => if key = ascii "X-Real-Ip" then ip else [] }

/-! ## Instances used to evaluate the definitions -/

/-- An injective numbering of byte strings (bijective base 256). -/
def bytesCode : Bytes → Nat
  | [] => 0
  | b :: t => 256 * bytesCode t + b.val + 1

/-- A stand-in for the primitives, for evaluating the definitions on concrete
inputs: the hash is the identity, and a signature of `d` under the key with
scalar `D` is `(bytesCode d + D, 1)`, verified under the public key whose `X`
is `D`. -/
def demoPrimitives : Primitives where
  sha1 := fun b => b
  ecdsaSign := fun priv _ d => ((bytesCode d : Int) + priv.D, 1)
  ecdsaVerify := fun pub d r s => decide (r = (bytesCode d : Int) + pub.X ∧ s = 1)

/-- A configuration whose public key matches its private key. -/
def demoConfig : SSOConfig :=
  { port := 8080, IPHeader := ascii "X-Real-Ip",
    pubkey := { X := 7, Y := 0 }, privkey := { pub := { X := 7, Y := 0 }, D := 7 } }


/-! ## SHA-1 and ECDSA over P-256

The hash of `crypto/sha1` (FIPS 180) and the algorithm of `crypto/ecdsa`
(FIPS 186) on the curve P-256, the curve of the key files `main` names by
default (`prime256v1-key.pem`). They give an instance of `Primitives` in which
the definitions can be evaluated on the values the program computes. -/

namespace sha1

/-- A 32-bit word rotated left by `n` bits. -/
def rotl (x n : Nat) : Nat := (x * 2 ^ n + x / 2 ^ (32 - n)) % 4294967296

/-- The big-endian bytes of `n`, `k` of them. -/
def bigEndian : Nat → Nat → List Nat
  | 0, _ => []
  | k + 1, n => n / 256 ^ k % 256 :: bigEndian k n

/-- The value of a big-endian byte string. -/
def fromBigEndian (bs : List Nat) : Nat := bs.foldl (fun acc b => acc * 256 + b) 0

/-- The padded message: the byte 0x80, zero bytes up to 56 modulo 64, and the
length in bits as 8 bytes. -/
def pad (msg : List Nat) : List Nat :=
  msg ++ [128] ++ List.replicate ((119 - msg.length % 64) % 64) 0 ++
    bigEndian 8 (8 * msg.length)

/-- The message schedule, latest word first: `n` more words after `w`. -/
def expand : Nat → List Nat → List Nat
  | 0, w => w
  | n + 1, w =>
    expand n (rotl (Nat.xor (Nat.xor (w.getD 2 0) (w.getD 7 0))
      (Nat.xor (w.getD 13 0) (w.getD 15 0))) 1 :: w)

/-- The function and the constant of round `t`. -/
def roundFK (t b c d : Nat) : Nat × Nat :=
  if t < 20 then (Nat.lor (Nat.land b c) (Nat.land (Nat.xor b 4294967295) d), 1518500249)
  else if t < 40 then (Nat.xor (Nat.xor b c) d, 1859775393)
  else if t < 60 then
    (Nat.lor (Nat.lor (Nat.land b c) (Nat.land b d)) (Nat.land c d), 2400959708)
  else (Nat.xor (Nat.xor b c) d, 3395469782)

/-- The rounds from `t` on, over the words `ws` of the schedule. -/
def rounds : List Nat → Nat → Nat × Nat × Nat × Nat × Nat → Nat × Nat × Nat × Nat × Nat
  | [], _, st => st
  | w :: ws, t, (a, b, c, d, e) =>
    rounds ws (t + 1)
      ((rotl a 5 + (roundFK t b c d).1 + e + (roundFK t b c d).2 + w) % 4294967296,
        a, rotl b 30, c, d)

/-- One block of 64 bytes added to the state. -/
def block (h : Nat × Nat × Nat × Nat × Nat) (bytes : List Nat) :
    Nat × Nat × Nat × Nat × Nat :=
  let w := (List.range 16).map (fun i => fromBigEndian ((bytes.drop (4 * i)).take 4))
  let r := rounds (expand 64 w.reverse).reverse 0 h
  ((h.1 + r.1) % 4294967296, (h.2.1 + r.2.1) % 4294967296,
    (h.2.2.1 + r.2.2.1) % 4294967296, (h.2.2.2.1 + r.2.2.2.1) % 4294967296,
    (h.2.2.2.2 + r.2.2.2.2) % 4294967296)

/-- The blocks of a padded message added to the state, one after the other. -/
def blocks : Nat → Nat × Nat × Nat × Nat × Nat → List Nat → Nat × Nat × Nat × Nat × Nat
  | 0, h, _ => h
  | n + 1, h, bytes => blocks n (block h (bytes.take 64)) (bytes.drop 64)

/-- The SHA-1 digest of a message, 20 bytes. -/
def Sum (msg : Bytes) : Bytes :=
  let p := pad (msg.map (fun b => b.val))
  let h := blocks (p.length / 64)
    (1732584193, 4023233417, 2562383102, 271733878, 3285377520) p
  (bigEndian 4 h.1 ++ bigEndian 4 h.2.1 ++ bigEndian 4 h.2.2.1 ++ bigEndian 4 h.2.2.2.1 ++
    bigEndian 4 h.2.2.2.2).map (fun n => Fin.ofNat n)

end sha1

namespace p256

/-- The prime of the field. -/
def P : Nat :=
  115792089210356248762697446949407573530086143415290314195533631308867097853951

/-- The order of the base point. -/
def N : Nat :=
  115792089210356248762697446949407573529996955224135760342422259061068512044369

/-- The x-coordinate of the base point. -/
def Gx : Nat :=
  48439561293906451759052585252797914202762949526041747995844080717082404635286

/-- The y-coordinate of the base point. -/
def Gy : Nat :=
  36134250956749795798585127919587881956611106672985015071877198253568414405109

/-- The power `b ^ e` modulo `m`, for `e < 2 ^ fuel`. -/
def powMod (m : Nat) : Nat → Nat → Nat → Nat
  | 0, _, _ => 1 % m
  | fuel + 1, b, e =>
    if e = 0 then 1 % m
    else if e % 2 = 1 then b * powMod m fuel (b * b % m) (e / 2) % m
    else powMod m fuel (b * b % m) (e / 2)

/-- The inverse of `x` modulo the prime `m`. -/
def invMod (x m : Nat) : Nat := powMod m 256 (x % m) (m - 2)

/-- A point of the curve `y² = x³ - 3x + b` in Jacobian coordinates: `(X, Y, Z)`
stands for `(X / Z², Y / Z³)`, and `Z = 0` for the point at infinity, as in
`crypto/elliptic`. -/
abbrev Point := Nat × Nat × Nat

/-- The base point. -/
def G : Point := (Gx, Gy, 1)

/-- The difference `a - b` in the field, for `a, b < P`. -/
def sub (a b : Nat) : Nat := (a + P - b) % P

/-- The double of a point (`doubleJacobian`). -/
def double (p : Point) : Point :=
  match p with
  | (x, y, z) =>
    let delta := z * z % P
    let gamma := y * y % P
    let beta := x * gamma % P
    let alpha := 3 * (sub x delta * ((x + delta) % P) % P) % P
    let x3 := sub (alpha * alpha % P) (8 * beta % P)
    let z3 := sub (sub ((y + z) * (y + z) % P) gamma) delta
    let y3 := sub (alpha * sub (4 * beta % P) x3 % P) (8 * (gamma * gamma % P) % P)
    (x3, y3, z3)

/-- The sum of two points (`addJacobian`). -/
def add (p q : Point) : Point :=
  match p, q with
  | (x1, y1, z1), (x2, y2, z2) =>
    if z1 = 0 then (x2, y2, z2)
    else if z2 = 0 then (x1, y1, z1)
    else
      let z1z1 := z1 * z1 % P
      let z2z2 := z2 * z2 % P
      let u1 := x1 * z2z2 % P
      let u2 := x2 * z1z1 % P
      let s1 := y1 * z2 % P * z2z2 % P
      let s2 := y2 * z1 % P * z1z1 % P
      let h := sub u2 u1
      let r := 2 * sub s2 s1 % P
      if h = 0 ∧ r = 0 then double (x1, y1, z1)
      else
        let i := 4 * (h * h % P) % P
        let j := h * i % P
        let v := u1 * i % P
        let x3 := sub (sub (r * r % P) j) (2 * v % P)
        let y3 := sub (r * sub v x3 % P) (2 * (s1 * j % P) % P)
        let z3 := sub (sub ((z1 + z2) * (z1 + z2) % P) z1z1) z2z2 * h % P
        (x3, y3, z3)

/-- The affine coordinates of a point (`affineFromJacobian`); `none` for the
point at infinity. -/
def affine (p : Point) : Option (Nat × Nat) :=
  match p with
  | (x, y, z) =>
    if z = 0 then none
    else
      let zinv := invMod z P
      some (x * (zinv * zinv % P) % P, y * (zinv * zinv % P * zinv % P) % P)

/-- The multiple `k · p` of a point, for `k < 2 ^ fuel`. -/
def mulAux : Nat → Nat → Point → Point
  | 0, _, _ => (0, 1, 0)
  | fuel + 1, k, p =>
    if k = 0 then (0, 1, 0)
    else if k % 2 = 1 then add p (mulAux fuel (k / 2) (double p))
    else mulAux fuel (k / 2) (double p)

/-- The multiple `k · p` of a point, for `k` below the order. -/
def mul (k : Nat) (p : Point) : Point := mulAux 256 k p

/-- The function `hashToInt`: the digest, cut to the 32 bytes of the order, as
a big-endian integer. -/
def hashToInt (digest : Bytes) : Nat :=
  sha1.fromBigEndian ((digest.take 32).map (fun b => b.val))

/-- ECDSA signing with the nonce `k = 1 + rnd % (N - 1)`: `r` is the
x-coordinate of `k · G` modulo `N` and `s = k⁻¹ (z + r d)` modulo `N`. (Go
draws a new nonce when `r` or `s` is 0; that loop is left out.) -/
def Sign (priv : PrivateKey) (rnd : Nat) (digest : Bytes) : Int × Int :=
  let r : Nat := match affine (mul (1 + rnd % (N - 1)) G) with
    | none => 0
    | some (x, _) => x % N
  let s : Nat := invMod (1 + rnd % (N - 1)) N * ((hashToInt digest + r * priv.D.toNat) % N) % N
  (Int.ofNat r, Int.ofNat s)

/-- ECDSA verification: `r` and `s` lie in `[1, N - 1]`, and the x-coordinate
of `(z s⁻¹) · G + (r s⁻¹) · Q` modulo `N` is `r`. -/
def Verify (pub : PublicKey) (digest : Bytes) (r s : Int) : Bool :=
  if r ≤ 0 ∨ s ≤ 0 then false
  else if r ≥ (N : Int) ∨ s ≥ (N : Int) then false
  else
    match affine (add (mul (hashToInt digest * invMod s.toNat N % N) G)
        (mul (r.toNat * invMod s.toNat N % N) (pub.X.toNat, pub.Y.toNat, 1))) with
    | none => false
    | some (x, _) => decide (x % N = r.toNat)

/-- The primitives with SHA-1 and ECDSA over P-256. -/
def primitives : Primitives where
  sha1 := sha1.Sum
  ecdsaSign := Sign
  ecdsaVerify := Verify

end p256

namespace p256

/-- A configuration with the private key
`d = 0x0123456789abcdef0123456789abcdef0123456789abcdef0123456789abcdef` and the
public key `d · G`. -/
def config : SSOConfig :=
  { port := 8080, IPHeader := ascii "X-Real-Ip",
    pubkey :=
      { X := 98061909492058364035111048019882274619202725064600646935165851115135261780351,
        Y := 74929535114941118713606544864289432912040932364790560608603694518983240388424 },
    privkey :=
      { pub :=
          { X := 98061909492058364035111048019882274619202725064600646935165851115135261780351,
            Y := 74929535114941118713606544864289432912040932364790560608603694518983240388424 },
        D := 514631507721405306298073637848375664226723355710112857507800679889911926255 } }

end p256

/-! ## Machine integers and decimal rendering: lemmas -/

theorem toInt32_lower (x : Int) : -2147483648 ≤ toInt32 x := by
  unfold toInt32; omega

theorem toInt32_upper (x : Int) : toInt32 x < 2147483648 := by
  unfold toInt32; omega

theorem toInt32_of_range (x : Int) (h1 : -2147483648 ≤ x) (h2 : x < 2147483648) :
    toInt32 x = x := by
  unfold toInt32; omega

theorem digitChar_val (d : Nat) : (digitChar d).val = 48 + d % 10 := by
  unfold digitChar
  simp [Fin.ofNat]
  omega

theorem decimalDigits_ne_nil (fuel n : Nat) (h : n < fuel) : decimalDigits fuel n ≠ [] := by
  cases fuel with
  | zero => omega
  | succ f =>
    unfold decimalDigits
    split <;> simp

theorem decimalDigits_isDigit (fuel n : Nat) :
    ∀ c ∈ decimalDigits fuel n, 48 ≤ c.val ∧ c.val ≤ 57 := by
  induction fuel generalizing n with
  | zero => intro c hc; simp [decimalDigits] at hc
  | succ f ih =>
    intro c hc
    unfold decimalDigits at hc
    split at hc
    · simp at hc; subst hc; rw [digitChar_val]; omega
    · rw [List.mem_append] at hc
      rcases hc with hc | hc
      · exact ih _ c hc
      · simp at hc; subst hc; rw [digitChar_val]; omega

theorem digitsValue_append_single (l : Bytes) (c : Byte) :
    digitsValue (l ++ [c]) = 10 * digitsValue l + (c.val - 48) := by
  simp [digitsValue, List.foldl_append]

theorem digitsValue_decimalDigits (fuel n : Nat) (h : n < fuel) :
    digitsValue (decimalDigits fuel n) = n := by
  induction fuel generalizing n with
  | zero => omega
  | succ f ih =>
    unfold decimalDigits
    split
    · simp [digitsValue, digitChar_val]; omega
    · rw [digitsValue_append_single, ih (n / 10) (by omega), digitChar_val]; omega

theorem digitsValue_decimalNat (n : Nat) : digitsValue (decimalNat n) = n :=
  digitsValue_decimalDigits (n + 1) n (by omega)

theorem decimalNat_injective (m n : Nat) (h : decimalNat m = decimalNat n) : m = n := by
  have := congrArg digitsValue h
  rwa [digitsValue_decimalNat, digitsValue_decimalNat] at this

theorem decimalNat_head_ne_minus (n : Nat) (t : Bytes) : decimalNat n ≠ (45 : Byte) :: t := by
  intro h
  have := decimalDigits_isDigit (n + 1) n 45 (by rw [← decimalNat.eq_1, h]; simp)
  have h45 : ((45 : Byte) : Nat) = 45 := rfl
  omega

/-- The rendering `%d` is injective. -/
theorem decimal_injective (x y : Int) (h : decimal x = decimal y) : x = y := by
  unfold decimal at h
  split at h <;> split at h
  · have := decimalNat_injective _ _ (List.cons_injective h); omega
  · exact absurd h.symm (decimalNat_head_ne_minus _ _)
  · exact absurd h (decimalNat_head_ne_minus _ _)
  · have := decimalNat_injective _ _ h; omega

theorem bytesCode_injective (a b : Bytes) (h : bytesCode a = bytesCode b) : a = b := by
  induction a generalizing b with
  | nil =>
    cases b with
    | nil => rfl
    | cons c t => simp [bytesCode] at h
  | cons x s ih =>
    cases b with
    | nil => simp [bytesCode] at h
    | cons c t =>
      simp only [bytesCode] at h
      have hx := x.isLt
      have hc := c.isLt
      have h1 : bytesCode s = bytesCode t := by omega
      have h2 : x.val = c.val := by omega
      rw [ih t h1, Fin.ext h2]

/-! ## The token protocol -/

theorem CreateHash.written_eq (ip : Bytes) (c : SSOCookie) :
    CreateHash.written ip c = ip ++ decimal c.E ++ c.P.U := by
  simp [CreateHash.written, HashState.Write]

/-- What `VerifyCookie` returns for a non-nil cookie: the expiry test, then
the signature check over the recomputed digest. -/
theorem VerifyCookie_some (prim : Primitives) (now : Int) (ip : Bytes) (c : SSOCookie)
    (config : SSOConfig) :
    VerifyCookie prim now ip (some c) config =
      Run.ret (decide (toInt32 now ≤ c.E) &&
        prim.ecdsaVerify config.pubkey (CreateHash prim ip c) c.R c.S) := by
  unfold VerifyCookie
  by_cases h : toInt32 now > c.E
  · have h2 : ¬ toInt32 now ≤ c.E := by omega
    simp [h, h2]
  · have h2 : toInt32 now ≤ c.E := by omega
    cases hv : prim.ecdsaVerify config.pubkey (CreateHash prim ip c) c.R c.S <;> simp [h, h2, hv]

theorem demo_ecdsa_correct (rnd : Nat) (d : Bytes) :
    demoPrimitives.ecdsaVerify demoConfig.pubkey d
      (demoPrimitives.ecdsaSign demoConfig.privkey rnd d).1
      (demoPrimitives.ecdsaSign demoConfig.privkey rnd d).2 = true := by
  simp [demoPrimitives, demoConfig]

theorem demo_sha1_injective : Function.Injective demoPrimitives.sha1 :=
  fun _ _ h => h

theorem demo_signature_binds_digest (rnd : Nat) (d d' : Bytes)
    (h : demoPrimitives.ecdsaVerify demoConfig.pubkey d'
      (demoPrimitives.ecdsaSign demoConfig.privkey rnd d).1
      (demoPrimitives.ecdsaSign demoConfig.privkey rnd d).2 = true) : d' = d := by
  simp [demoPrimitives, demoConfig] at h
  exact (bytesCode_injective _ _ (by exact_mod_cast h)).symm

/-! ### C1 -/

/-- C1, as stated, fails: a cookie issued at `now = 2147483643` (ten seconds
before the `int32` clock wraps) gets `E = int32(now + 10) = -2147483643`, and
`VerifyCookie` at the same `now` rejects it as expired, although the stand-in
signature scheme is correct. -/
theorem C1_counterexample :
    (∀ (rnd : Nat) (d : Bytes), demoPrimitives.ecdsaVerify demoConfig.pubkey d
        (demoPrimitives.ecdsaSign demoConfig.privkey rnd d).1
        (demoPrimitives.ecdsaSign demoConfig.privkey rnd d).2 = true) ∧
    (CreateCookie.sso_cookie demoPrimitives 2147483643 0 (ascii "203.0.113.5")
        { U := ascii "jg123456" } demoConfig).E = -2147483643 ∧
    VerifyCookie demoPrimitives 2147483643 (ascii "203.0.113.5")
      (some (CreateCookie.sso_cookie demoPrimitives 2147483643 0 (ascii "203.0.113.5")
        { U := ascii "jg123456" } demoConfig)) demoConfig = Run.ret false :=
  ⟨demo_ecdsa_correct, by decide, by decide⟩

/-- C1 (amended): under ECDSA correctness for the configured key pair, the
cookie `CreateCookie` builds for `(ip, {U: u})` at time `now` is accepted by
`VerifyCookie(ip, ·)` at the same `now` exactly when
`int32(now) ≤ int32(now + 10)`, that is, when adding the ten seconds does not
wrap the 32-bit timestamp. -/
theorem C1_issue_then_verify (prim : Primitives) (config : SSOConfig) (ip u : Bytes)
    (now : Int) (rnd : Nat)
    (hecdsa : ∀ (rnd : Nat) (d : Bytes), prim.ecdsaVerify config.pubkey d
        (prim.ecdsaSign config.privkey rnd d).1 (prim.ecdsaSign config.privkey rnd d).2 = true) :
    VerifyCookie prim now ip
        (some (CreateCookie.sso_cookie prim now rnd ip { U := u } config)) config = Run.ret true ↔
      toInt32 now ≤ toInt32 (now + 10) := by
  rw [VerifyCookie_some]
  have hsig := hecdsa rnd (CreateHash prim ip
    { SSOCookie.zero with E := toInt32 (now + 10), P := { U := u } })
  have hh : CreateHash prim ip (CreateCookie.sso_cookie prim now rnd ip { U := u } config) =
      CreateHash prim ip { SSOCookie.zero with E := toInt32 (now + 10), P := { U := u } } := rfl
  rw [hh]
  simp only [CreateCookie.sso_cookie]
  rw [hsig]
  simp

/-- C1 (amended), at a concrete input: a cookie issued at `now = 1700000000`
for `203.0.113.5` verifies at that same time. -/
theorem C1_issue_then_verify_witness :
    toInt32 1700000000 ≤ toInt32 (1700000000 + 10) ∧
    VerifyCookie demoPrimitives 1700000000 (ascii "203.0.113.5")
      (some (CreateCookie.sso_cookie demoPrimitives 1700000000 0 (ascii "203.0.113.5")
        { U := ascii "jg123456" } demoConfig)) demoConfig = Run.ret true :=
  ⟨by decide,
   (C1_issue_then_verify demoPrimitives demoConfig (ascii "203.0.113.5") (ascii "jg123456")
      1700000000 0 demo_ecdsa_correct).mpr (by decide)⟩

/-! ### C2 -/

/-- C2: for client IPs `ip1 ≠ ip2`, the bytes `VerifyCookie` hashes for `ip2`
differ from the bytes hashed for `ip1`, for every cookie; and a cookie issued
for `ip1` is rejected by `VerifyCookie(ip2, ·)` (at any time), when SHA-1 is
injective and a signature verifies only over the digest that was signed. -/
theorem C2_ip_binding (prim : Primitives) (config : SSOConfig) (ip1 ip2 : Bytes)
    (payload : SSOCookiePayload) (now0 now : Int) (rnd : Nat)
    (hip : ip1 ≠ ip2)
    (hsha : Function.Injective prim.sha1)
    (hsig : ∀ d d' : Bytes, prim.ecdsaVerify config.pubkey d'
        (prim.ecdsaSign config.privkey rnd d).1 (prim.ecdsaSign config.privkey rnd d).2 = true →
        d' = d) :
    (∀ tok : SSOCookie, CreateHash.written ip2 tok ≠ CreateHash.written ip1 tok) ∧
    VerifyCookie prim now ip2
      (some (CreateCookie.sso_cookie prim now0 rnd ip1 payload config)) config = Run.ret false := by
  have hdiff : ∀ tok : SSOCookie, CreateHash.written ip2 tok ≠ CreateHash.written ip1 tok := by
    intro tok h
    rw [CreateHash.written_eq, CreateHash.written_eq, List.append_assoc, List.append_assoc] at h
    exact hip (List.append_cancel_right h).symm
  refine ⟨hdiff, ?_⟩
  rw [VerifyCookie_some]
  cases hv : prim.ecdsaVerify config.pubkey
      (CreateHash prim ip2 (CreateCookie.sso_cookie prim now0 rnd ip1 payload config))
      (CreateCookie.sso_cookie prim now0 rnd ip1 payload config).R
      (CreateCookie.sso_cookie prim now0 rnd ip1 payload config).S with
  | false => simp
  | true =>
    exfalso
    have h1 := hsig _ _ hv
    exact hdiff { SSOCookie.zero with E := toInt32 (now0 + 10), P := payload } (hsha h1)

/-- C2 at a concrete input: the cookie issued for `203.0.113.5` is rejected
when presented from `203.0.113.6`. -/
theorem C2_ip_binding_witness :
    ascii "203.0.113.5" ≠ ascii "203.0.113.6" ∧
    Function.Injective demoPrimitives.sha1 ∧
    VerifyCookie demoPrimitives 1700000000 (ascii "203.0.113.6")
      (some (CreateCookie.sso_cookie demoPrimitives 1700000000 0 (ascii "203.0.113.5")
        { U := ascii "jg123456" } demoConfig)) demoConfig = Run.ret false :=
  ⟨by decide, demo_sha1_injective,
   (C2_ip_binding demoPrimitives demoConfig (ascii "203.0.113.5") (ascii "203.0.113.6")
      { U := ascii "jg123456" } 1700000000 1700000000 0 (by decide) demo_sha1_injective
      (demo_signature_binds_digest 0)).2⟩

/-! ### C3 -/

/-- C3: `VerifyCookie` takes the expired branch exactly when `int32(now) > E`
(strictly): if `int32(now) > E` it returns false whatever the signature, the
ip and the key are, and otherwise its result is the ECDSA verification of
`(R, S)` over `CreateHash(ip, token)`. In particular a token with
`E = int32(now)` passes the expiry check, and a token with `E + 1 = int32(now)`
is rejected. (`E + 1` is the integer sum, not a wrapping `int32` sum.) -/
theorem C3_expiry_boundary (prim : Primitives) (config : SSOConfig) (now : Int) (ip : Bytes)
    (tok : SSOCookie) :
    (toInt32 now > tok.E → VerifyCookie prim now ip (some tok) config = Run.ret false) ∧
    (¬ toInt32 now > tok.E → VerifyCookie prim now ip (some tok) config =
      Run.ret (prim.ecdsaVerify config.pubkey (CreateHash prim ip tok) tok.R tok.S)) ∧
    (tok.E = toInt32 now → VerifyCookie prim now ip (some tok) config =
      Run.ret (prim.ecdsaVerify config.pubkey (CreateHash prim ip tok) tok.R tok.S)) ∧
    (tok.E + 1 = toInt32 now → VerifyCookie prim now ip (some tok) config = Run.ret false) := by
  rw [VerifyCookie_some]
  refine ⟨?_, ?_, ?_, ?_⟩
  · intro h
    have h2 : ¬ toInt32 now ≤ tok.E := by omega
    simp [h2]
  · intro h
    have h2 : toInt32 now ≤ tok.E := by omega
    simp [h2]
  · intro h
    have h2 : toInt32 now ≤ tok.E := by omega
    simp [h2]
  · intro h
    have h2 : ¬ toInt32 now ≤ tok.E := by omega
    simp [h2]

/-- C3 at concrete inputs: a validly signed token with `E = 1700000000` is
accepted at `now = 1700000000` and rejected at `now = 1700000001`. -/
theorem C3_expiry_boundary_witness :
    VerifyCookie demoPrimitives 1700000000 (ascii "203.0.113.5")
      (some (CreateCookie.sso_cookie demoPrimitives 1699999990 0 (ascii "203.0.113.5")
        { U := ascii "jg123456" } demoConfig)) demoConfig = Run.ret true ∧
    VerifyCookie demoPrimitives 1700000001 (ascii "203.0.113.5")
      (some (CreateCookie.sso_cookie demoPrimitives 1699999990 0 (ascii "203.0.113.5")
        { U := ascii "jg123456" } demoConfig)) demoConfig = Run.ret false :=
  ⟨((C3_expiry_boundary demoPrimitives demoConfig 1700000000 (ascii "203.0.113.5")
      (CreateCookie.sso_cookie demoPrimitives 1699999990 0 (ascii "203.0.113.5")
        { U := ascii "jg123456" } demoConfig)).2.2.1 (by decide)).trans
      (congrArg Run.ret (demo_ecdsa_correct 0 _)),
   (C3_expiry_boundary demoPrimitives demoConfig 1700000001 (ascii "203.0.113.5")
      (CreateCookie.sso_cookie demoPrimitives 1699999990 0 (ascii "203.0.113.5")
        { U := ascii "jg123456" } demoConfig)).2.2.2 (by decide)⟩

/-! ### C4 -/

/-- C4, as stated, fails: the token issued at `2147483637` has
`E = 2147483647`; at the 64-bit time `now = 2147483648 > E` the comparison is
made on `int32(now) = -2147483648`, the expiry branch is not taken, and
`VerifyCookie` accepts the token. -/
theorem C4_counterexample :
    (CreateCookie.sso_cookie demoPrimitives 2147483637 0 (ascii "203.0.113.5")
        { U := ascii "jg123456" } demoConfig).E = 2147483647 ∧
    (2147483648 : Int) > (CreateCookie.sso_cookie demoPrimitives 2147483637 0
        (ascii "203.0.113.5") { U := ascii "jg123456" } demoConfig).E ∧
    toInt32 2147483648 = -2147483648 ∧
    VerifyCookie demoPrimitives 2147483648 (ascii "203.0.113.5")
      (some (CreateCookie.sso_cookie demoPrimitives 2147483637 0 (ascii "203.0.113.5")
        { U := ascii "jg123456" } demoConfig)) demoConfig = Run.ret true :=
  ⟨by decide, by decide, by decide, by decide⟩

/-- C4 (amended): for every token and every current time `now` inside the
signed 32-bit range, if `now > token.E` then `VerifyCookie` returns false,
regardless of ip, `R`, `S` and the public key. -/
theorem C4_expired_rejected_in_range (prim : Primitives) (config : SSOConfig) (now : Int)
    (ip : Bytes) (tok : SSOCookie)
    (hlo : -2147483648 ≤ now) (hhi : now < 2147483648) (hexp : now > tok.E) :
    VerifyCookie prim now ip (some tok) config = Run.ret false := by
  rw [VerifyCookie_some, toInt32_of_range now hlo hhi]
  have h2 : ¬ now ≤ tok.E := by omega
  simp [h2]

/-- C4 (amended) at a concrete input: a validly signed token with
`E = 1700000000` is rejected at `now = 1700000001`. -/
theorem C4_expired_rejected_in_range_witness :
    (-2147483648 : Int) ≤ 1700000001 ∧ (1700000001 : Int) < 2147483648 ∧
    (1700000001 : Int) > (CreateCookie.sso_cookie demoPrimitives 1699999990 0
        (ascii "203.0.113.5") { U := ascii "jg123456" } demoConfig).E ∧
    VerifyCookie demoPrimitives 1700000001 (ascii "203.0.113.5")
      (some (CreateCookie.sso_cookie demoPrimitives 1699999990 0 (ascii "203.0.113.5")
        { U := ascii "jg123456" } demoConfig)) demoConfig = Run.ret false :=
  ⟨by decide, by decide, by decide,
   C4_expired_rejected_in_range demoPrimitives demoConfig 1700000001 (ascii "203.0.113.5") _
     (by decide) (by decide) (by decide)⟩

/-! ### C5 -/

/-- C5: the field `H` is not an input of verification. Two tokens that agree
on `E`, `P.U`, `R` and `S` get the same digest from `CreateHash` and the same
result from `VerifyCookie`, whatever their `H` fields are. -/
theorem C5_hash_field_ignored (prim : Primitives) (config : SSOConfig) (now : Int) (ip : Bytes)
    (t1 t2 : SSOCookie)
    (hE : t1.E = t2.E) (hU : t1.P.U = t2.P.U) (hR : t1.R = t2.R) (hS : t1.S = t2.S) :
    CreateHash prim ip t1 = CreateHash prim ip t2 ∧
    VerifyCookie prim now ip (some t1) config = VerifyCookie prim now ip (some t2) config := by
  have hh : CreateHash prim ip t1 = CreateHash prim ip t2 := by
    simp [CreateHash, CreateHash.written_eq, hE, hU]
  refine ⟨hh, ?_⟩
  rw [VerifyCookie_some, VerifyCookie_some, hh, hE, hR, hS]

/-- C5 at a concrete input: replacing `H` of an issued token by other bytes
leaves the result of `VerifyCookie` unchanged. -/
theorem C5_hash_field_ignored_witness :
    VerifyCookie demoPrimitives 1700000000 (ascii "203.0.113.5")
      (some (CreateCookie.sso_cookie demoPrimitives 1700000000 0 (ascii "203.0.113.5")
        { U := ascii "jg123456" } demoConfig)) demoConfig =
    VerifyCookie demoPrimitives 1700000000 (ascii "203.0.113.5")
      (some { CreateCookie.sso_cookie demoPrimitives 1700000000 0 (ascii "203.0.113.5")
        { U := ascii "jg123456" } demoConfig with H := some [1, 2, 3] }) demoConfig :=
  (C5_hash_field_ignored demoPrimitives demoConfig 1700000000 (ascii "203.0.113.5") _ _
    rfl rfl rfl rfl).2

/-! ### C6 -/

set_option maxRecDepth 100000 in
/-- C6, as stated, fails for the field `S`. With SHA-1 and ECDSA over P-256 and
the key pair of `p256.config`, the token `CreateCookie` builds at the time
`2147483637` for `203.0.113.5` and `jg123456` (with the nonce
`123456789123456789123456790`) has the `R`, `S` and `E = 2147483647` below, and
`VerifyCookie` accepts it; it also accepts the token in which only `S` is
replaced by `N - S`, a different number. -/
theorem C6_counterexample :
    CreateCookie.sso_cookie p256.primitives 2147483637 123456789123456789123456789
        (ascii "203.0.113.5") { U := ascii "jg123456" } p256.config =
      { R := 93403769883468938202239201905543341319864567221611665443846076494997779889787,
        S := 24546822097872984882674055111855056455546896681372919083825831618957246077610,
        H := some [246, 7, 199, 146, 186, 219, 15, 73, 96, 131, 154, 110, 46, 72, 249, 177,
          145, 105, 245, 22],
        E := 2147483647, P := { U := ascii "jg123456" } } ∧
    VerifyCookie p256.primitives 1800000000 (ascii "203.0.113.5")
      (some
        { R := 93403769883468938202239201905543341319864567221611665443846076494997779889787,
          S := 24546822097872984882674055111855056455546896681372919083825831618957246077610,
          H := some [246, 7, 199, 146, 186, 219, 15, 73, 96, 131, 154, 110, 46, 72, 249, 177,
            145, 105, 245, 22],
          E := 2147483647, P := { U := ascii "jg123456" } }) p256.config = Run.ret true ∧
    (p256.N : Int) -
        24546822097872984882674055111855056455546896681372919083825831618957246077610 =
      91245267112483263880023391837552517074450058542762841258596427442111265966759 ∧
    (91245267112483263880023391837552517074450058542762841258596427442111265966759 : Int) ≠
      24546822097872984882674055111855056455546896681372919083825831618957246077610 ∧
    VerifyCookie p256.primitives 1800000000 (ascii "203.0.113.5")
      (some
        { R := 93403769883468938202239201905543341319864567221611665443846076494997779889787,
          S := 91245267112483263880023391837552517074450058542762841258596427442111265966759,
          H := some [246, 7, 199, 146, 186, 219, 15, 73, 96, 131, 154, 110, 46, 72, 249, 177,
            145, 105, 245, 22],
          E := 2147483647, P := { U := ascii "jg123456" } }) p256.config = Run.ret true := by
  decide!

/-- C6 (amended): take the token issued for `ip` (at any time, with any
randomness), SHA-1 injective, and the signature produced at issuance valid
only for the digest that was signed. Altering only the expiry `E` or only the
username `U` changes the bytes `ip ++ decimal(E) ++ U` that are hashed and
makes `VerifyCookie` return false (at any time). Altering only `R` or only `S`
leaves the digest as it was: `VerifyCookie` then returns false when the token
has expired, and otherwise what `ecdsa.Verify` returns for the altered pair
over the unchanged digest. -/
theorem C6_tamper_resistance (prim : Primitives) (config : SSOConfig) (ip : Bytes)
    (payload : SSOCookiePayload) (now0 now : Int) (rnd : Nat)
    (hsha : Function.Injective prim.sha1)
    (hdigest : ∀ d d' : Bytes, prim.ecdsaVerify config.pubkey d'
        (prim.ecdsaSign config.privkey rnd d).1 (prim.ecdsaSign config.privkey rnd d).2 = true →
        d' = d) :
    (∀ E' : Int, E' ≠ (CreateCookie.sso_cookie prim now0 rnd ip payload config).E →
      CreateHash.written ip
          { CreateCookie.sso_cookie prim now0 rnd ip payload config with E := E' } ≠
        CreateHash.written ip (CreateCookie.sso_cookie prim now0 rnd ip payload config) ∧
      VerifyCookie prim now ip
          (some { CreateCookie.sso_cookie prim now0 rnd ip payload config with E := E' })
          config = Run.ret false) ∧
    (∀ U' : Bytes, U' ≠ (CreateCookie.sso_cookie prim now0 rnd ip payload config).P.U →
      CreateHash.written ip
          { CreateCookie.sso_cookie prim now0 rnd ip payload config with P := { U := U' } } ≠
        CreateHash.written ip (CreateCookie.sso_cookie prim now0 rnd ip payload config) ∧
      VerifyCookie prim now ip
          (some { CreateCookie.sso_cookie prim now0 rnd ip payload config with P := { U := U' } })
          config = Run.ret false) ∧
    (∀ R' : Int,
      CreateHash prim ip
          { CreateCookie.sso_cookie prim now0 rnd ip payload config with R := R' } =
        CreateHash prim ip (CreateCookie.sso_cookie prim now0 rnd ip payload config) ∧
      VerifyCookie prim now ip
          (some { CreateCookie.sso_cookie prim now0 rnd ip payload config with R := R' })
          config =
        Run.ret (decide (toInt32 now ≤ (CreateCookie.sso_cookie prim now0 rnd ip payload config).E) &&
          prim.ecdsaVerify config.pubkey
            (CreateHash prim ip (CreateCookie.sso_cookie prim now0 rnd ip payload config))
            R' (CreateCookie.sso_cookie prim now0 rnd ip payload config).S)) ∧
    (∀ S' : Int,
      CreateHash prim ip
          { CreateCookie.sso_cookie prim now0 rnd ip payload config with S := S' } =
        CreateHash prim ip (CreateCookie.sso_cookie prim now0 rnd ip payload config) ∧
      VerifyCookie prim now ip
          (some { CreateCookie.sso_cookie prim now0 rnd ip payload config with S := S' })
          config =
        Run.ret (decide (toInt32 now ≤ (CreateCookie.sso_cookie prim now0 rnd ip payload config).E) &&
          prim.ecdsaVerify config.pubkey
            (CreateHash prim ip (CreateCookie.sso_cookie prim now0 rnd ip payload config))
            (CreateCookie.sso_cookie prim now0 rnd ip payload config).R S')) := by
  refine ⟨?_, ?_, ?_, ?_⟩
  · intro E' hE
    have hw : CreateHash.written ip
          { CreateCookie.sso_cookie prim now0 rnd ip payload config with E := E' } ≠
        CreateHash.written ip (CreateCookie.sso_cookie prim now0 rnd ip payload config) := by
      intro h
      rw [CreateHash.written_eq, CreateHash.written_eq, List.append_assoc,
        List.append_assoc] at h
      exact hE (decimal_injective _ _ (List.append_cancel_right (List.append_cancel_left h)))
    refine ⟨hw, ?_⟩
    rw [VerifyCookie_some]
    cases hv : prim.ecdsaVerify config.pubkey
      (CreateHash prim ip { CreateCookie.sso_cookie prim now0 rnd ip payload config with E := E' })
      (CreateCookie.sso_cookie prim now0 rnd ip payload config).R
      (CreateCookie.sso_cookie prim now0 rnd ip payload config).S with
    | false => simp
    | true => exact absurd (hsha (hdigest _ _ hv)) hw
  · intro U' hU
    have hw : CreateHash.written ip
          { CreateCookie.sso_cookie prim now0 rnd ip payload config with P := { U := U' } } ≠
        CreateHash.written ip (CreateCookie.sso_cookie prim now0 rnd ip payload config) := by
      intro h
      rw [CreateHash.written_eq, CreateHash.written_eq] at h
      exact hU (List.append_cancel_left h)
    refine ⟨hw, ?_⟩
    rw [VerifyCookie_some]
    cases hv : prim.ecdsaVerify config.pubkey
      (CreateHash prim ip
        { CreateCookie.sso_cookie prim now0 rnd ip payload config with P := { U := U' } })
      (CreateCookie.sso_cookie prim now0 rnd ip payload config).R
      (CreateCookie.sso_cookie prim now0 rnd ip payload config).S with
    | false => simp
    | true => exact absurd (hsha (hdigest _ _ hv)) hw
  · intro R'
    refine ⟨rfl, ?_⟩
    rw [VerifyCookie_some]
    rfl
  · intro S'
    refine ⟨rfl, ?_⟩
    rw [VerifyCookie_some]
    rfl

/-- C6 (amended) at a concrete input: the token issued at `1700000000` for
`203.0.113.5` is accepted as issued; it is rejected once its expiry is moved
to `1800000000`, and once its username is changed to `root`; with `R` or `S`
replaced, the result is that of the signature check on the replaced pair
(here a rejection). -/
theorem C6_tamper_resistance_witness :
    Function.Injective demoPrimitives.sha1 ∧
    VerifyCookie demoPrimitives 1700000000 (ascii "203.0.113.5")
      (some (CreateCookie.sso_cookie demoPrimitives 1700000000 0 (ascii "203.0.113.5")
        { U := ascii "jg123456" } demoConfig)) demoConfig = Run.ret true ∧
    VerifyCookie demoPrimitives 1700000000 (ascii "203.0.113.5")
      (some { CreateCookie.sso_cookie demoPrimitives 1700000000 0 (ascii "203.0.113.5")
        { U := ascii "jg123456" } demoConfig with E := 1800000000 }) demoConfig =
      Run.ret false ∧
    VerifyCookie demoPrimitives 1700000000 (ascii "203.0.113.5")
      (some { CreateCookie.sso_cookie demoPrimitives 1700000000 0 (ascii "203.0.113.5")
        { U := ascii "jg123456" } demoConfig with P := { U := ascii "root" } }) demoConfig =
      Run.ret false ∧
    VerifyCookie demoPrimitives 1700000000 (ascii "203.0.113.5")
      (some { CreateCookie.sso_cookie demoPrimitives 1700000000 0 (ascii "203.0.113.5")
        { U := ascii "jg123456" } demoConfig with R := 5 }) demoConfig =
      Run.ret false ∧
    VerifyCookie demoPrimitives 1700000000 (ascii "203.0.113.5")
      (some { CreateCookie.sso_cookie demoPrimitives 1700000000 0 (ascii "203.0.113.5")
        { U := ascii "jg123456" } demoConfig with S := 2 }) demoConfig =
      Run.ret false :=
  ⟨demo_sha1_injective, by decide,
   ((C6_tamper_resistance demoPrimitives demoConfig (ascii "203.0.113.5")
      { U := ascii "jg123456" } 1700000000 1700000000 0 demo_sha1_injective
      (demo_signature_binds_digest 0)).1 1800000000 (by decide)).2,
   ((C6_tamper_resistance demoPrimitives demoConfig (ascii "203.0.113.5")
      { U := ascii "jg123456" } 1700000000 1700000000 0 demo_sha1_injective
      (demo_signature_binds_digest 0)).2.1 (ascii "root") (by decide)).2,
   (((C6_tamper_resistance demoPrimitives demoConfig (ascii "203.0.113.5")
      { U := ascii "jg123456" } 1700000000 1700000000 0 demo_sha1_injective
      (demo_signature_binds_digest 0)).2.2.1 5).2).trans (by decide),
   (((C6_tamper_resistance demoPrimitives demoConfig (ascii "203.0.113.5")
      { U := ascii "jg123456" } 1700000000 1700000000 0 demo_sha1_injective
      (demo_signature_binds_digest 0)).2.2.2 2).2).trans (by decide)⟩

/-! ### C10 -/

/-- C10: `CreateHash(ip, token)` is SHA-1 of the one byte string
`ip ++ decimal(E) ++ U`, in that order and with no separator, where
`decimal` renders a non-negative number by its base-10 digits and a negative
one with a leading `-`. So different triples can have the same digest:
`("1", 23, "x")` and `("12", 3, "x")`, and, for every ip, `(ip, 12, "3x")`
and `(ip, 123, "x")`. -/
theorem C10_digest_definition (prim : Primitives) :
    (∀ (ip : Bytes) (tok : SSOCookie),
      CreateHash prim ip tok = prim.sha1 (ip ++ decimal tok.E ++ tok.P.U)) ∧
    (∀ n : Nat, digitsValue (decimal (n : Int)) = n ∧
      decimal (-((n : Int) + 1)) = 45 :: decimal ((n : Int) + 1)) ∧
    decimal 1700000000 = ascii "1700000000" ∧
    decimal (-2147483648) = ascii "-2147483648" ∧
    (∀ tok : SSOCookie,
      CreateHash prim (ascii "1") { tok with E := 23, P := { U := ascii "x" } } =
      CreateHash prim (ascii "12") { tok with E := 3, P := { U := ascii "x" } }) ∧
    (∀ (ip : Bytes) (tok : SSOCookie),
      CreateHash prim ip { tok with E := 12, P := { U := ascii "3x" } } =
      CreateHash prim ip { tok with E := 123, P := { U := ascii "x" } }) := by
  refine ⟨?_, ?_, by decide, by decide, ?_, ?_⟩
  · intro ip tok
    rw [CreateHash, CreateHash.written_eq]
  · intro n
    constructor
    · have h : ¬ ((n : Int) < 0) := by omega
      simp only [decimal, h, if_false, Int.natAbs_ofNat]
      exact digitsValue_decimalNat n
    · have h1 : -((n : Int) + 1) < 0 := by omega
      have h2 : ¬ ((n : Int) + 1 < 0) := by omega
      have h3 : (-((n : Int) + 1)).natAbs = ((n : Int) + 1).natAbs := Int.natAbs_neg _
      simp only [decimal, h1, h2, if_true, if_false, h3]
  · intro tok
    simp only [CreateHash, CreateHash.written_eq]
    congr 1
  · intro ip tok
    simp only [CreateHash, CreateHash.written_eq]
    have h : decimal 12 ++ ascii "3x" = decimal 123 ++ ascii "x" := by decide
    rw [List.append_assoc, List.append_assoc, h]

/-! ## The codec: `net/url` -/

theorem unescapeValid_percent (a b : Byte) (s : Bytes) :
    url.unescapeValid (37 :: a :: b :: s) = (url.ishex a && url.ishex b && url.unescapeValid s) := by
  rw [url.unescapeValid.eq_def]; rfl

theorem unescapeValid_plain (c : Byte) (s : Bytes) (h : c.val ≠ 37) :
    url.unescapeValid (c :: s) = url.unescapeValid s := by
  rw [url.unescapeValid.eq_def]; simp only [h, if_false]

theorem unescapeBuild_percent (a b : Byte) (s : Bytes) :
    url.unescapeBuild (37 :: a :: b :: s) =
      Fin.ofNat (url.unhex a * 16 + url.unhex b) :: url.unescapeBuild s := by
  rw [url.unescapeBuild.eq_def]; rfl

theorem unescapeBuild_plus (s : Bytes) :
    url.unescapeBuild (43 :: s) = 32 :: url.unescapeBuild s := by
  rw [url.unescapeBuild.eq_def]; rfl

theorem unescapeBuild_plain (c : Byte) (s : Bytes) (h : c.val ≠ 37) (h2 : c.val ≠ 43) :
    url.unescapeBuild (c :: s) = c :: url.unescapeBuild s := by
  rw [url.unescapeBuild.eq_def]; simp only [h, h2, if_false]

set_option maxRecDepth 100000 in
theorem unescape_escaped_byte :
    ∀ c : Byte, url.ishex (url.upperhex (c.val / 16)) = true ∧
      url.ishex (url.upperhex (c.val % 16)) = true ∧
      (Fin.ofNat (url.unhex (url.upperhex (c.val / 16)) * 16 +
        url.unhex (url.upperhex (c.val % 16))) : Byte) = c := by
  decide

set_option maxRecDepth 100000 in
theorem shouldEscape_special :
    ∀ c : Byte, url.shouldEscape c = false → c.val ≠ 37 ∧ c.val ≠ 43 ∧ c.val ≠ 32 := by
  decide

theorem unescapeValid_QueryEscape (s : Bytes) : url.unescapeValid (url.QueryEscape s) = true := by
  induction s with
  | nil => rfl
  | cons c s ih =>
    unfold url.QueryEscape
    split
    · rw [unescapeValid_plain _ _ (by decide), ih]
    · split
      · have h := unescape_escaped_byte c
        rw [unescapeValid_percent, ih, h.1, h.2.1]; rfl
      · rename_i hs
        have h := shouldEscape_special c (by simpa using hs)
        rw [unescapeValid_plain _ _ h.1, ih]

theorem unescapeBuild_QueryEscape (s : Bytes) : url.unescapeBuild (url.QueryEscape s) = s := by
  induction s with
  | nil => rfl
  | cons c s ih =>
    unfold url.QueryEscape
    split
    · rename_i h32
      have hc : c = 32 := Fin.ext h32
      rw [unescapeBuild_plus, ih, hc]
    · split
      · have h := unescape_escaped_byte c
        rw [unescapeBuild_percent, ih, h.2.2]
      · rename_i hs
        have h := shouldEscape_special c (by simpa using hs)
        rw [unescapeBuild_plain _ _ h.1 h.2.1, ih]

/-- Unescaping an escaped string gives the string back, without error. -/
theorem QueryUnescape_QueryEscape (s : Bytes) :
    url.QueryUnescape (url.QueryEscape s) = (s, none) := by
  simp [url.QueryUnescape, unescapeValid_QueryEscape, unescapeBuild_QueryEscape]

/-! ## The codec: `encoding/base64` -/

theorem encodeStd_mod (n : Nat) : base64.encodeStd (n % 64) = base64.encodeStd n := by
  simp [base64.encodeStd, Nat.mod_mod]

set_option maxRecDepth 100000 in
theorem decodeMap_encodeStd_fin :
    ∀ m : Fin 64, base64.decodeMap (base64.encodeStd m.val) = some m.val := by
  decide

theorem decodeMap_encodeStd (n : Nat) :
    base64.decodeMap (base64.encodeStd n) = some (n % 64) := by
  have h := decodeMap_encodeStd_fin ⟨n % 64, Nat.mod_lt _ (by decide)⟩
  simpa [encodeStd_mod] using h

theorem decodeLoop_sextet (c : Byte) (src : Bytes) (dbuf : List Nat) (v : Nat)
    (hc : base64.decodeMap c = some v) (hlen : dbuf.length ≠ 3) :
    base64.decodeLoop (c :: src) dbuf = base64.decodeLoop src (dbuf ++ [v]) := by
  rw [base64.decodeLoop.eq_def]
  simp only [hc, hlen, if_false]

theorem decodeLoop_last_sextet (c : Byte) (src : Bytes) (dbuf : List Nat) (v : Nat)
    (hc : base64.decodeMap c = some v) (hlen : dbuf.length = 3) :
    base64.decodeLoop (c :: src) dbuf =
      (base64.decodeLoop src []).map (fun t => base64.quantumBytes (dbuf ++ [v]) ++ t) := by
  rw [base64.decodeLoop.eq_def]
  simp only [hc, hlen, if_true]

theorem decodeLoop_pad2 (s0 s1 : Nat) :
    base64.decodeLoop [61, 61] [s0, s1] = some (base64.quantumBytes [s0, s1]) := by
  rw [base64.decodeLoop.eq_def]; rfl

theorem decodeLoop_pad1 (s0 s1 s2 : Nat) :
    base64.decodeLoop [61] [s0, s1, s2] = some (base64.quantumBytes [s0, s1, s2]) := by
  rw [base64.decodeLoop.eq_def]; rfl

theorem quantumBytes_three (a b c : Byte) :
    base64.quantumBytes [a.val / 4 % 64, (a.val % 4 * 16 + b.val / 16) % 64,
      (b.val % 16 * 4 + c.val / 64) % 64, c.val % 64 % 64] = [a, b, c] := by
  have ha := a.isLt
  have hb := b.isLt
  have hc := c.isLt
  simp only [base64.quantumBytes, List.getD_cons_zero, List.getD_cons_succ, List.length_cons,
    List.length_nil, Nat.add_sub_cancel, List.take_succ_cons, List.take_zero]
  refine congrArg₂ _ (Fin.ext ?_) (congrArg₂ _ (Fin.ext ?_) (congrArg₂ _ (Fin.ext ?_) rfl))
  · simp only [Fin.ofNat, Fin.val_mk]; omega
  · simp only [Fin.ofNat, Fin.val_mk]; omega
  · simp only [Fin.ofNat, Fin.val_mk]; omega

theorem quantumBytes_two (a b : Byte) :
    base64.quantumBytes [a.val / 4 % 64, (a.val % 4 * 16 + b.val / 16) % 64,
      b.val % 16 * 4 % 64] = [a, b] := by
  have ha := a.isLt
  have hb := b.isLt
  simp only [base64.quantumBytes, List.getD_cons_zero, List.getD_cons_succ, List.length_cons,
    List.length_nil, Nat.add_sub_cancel, List.take_succ_cons, List.take_zero, List.getD_nil]
  refine congrArg₂ _ (Fin.ext ?_) (congrArg₂ _ (Fin.ext ?_) rfl)
  · simp only [Fin.ofNat, Fin.val_mk]; omega
  · simp only [Fin.ofNat, Fin.val_mk]; omega

theorem quantumBytes_one (a : Byte) :
    base64.quantumBytes [a.val / 4 % 64, a.val % 4 * 16 % 64] = [a] := by
  have ha := a.isLt
  simp only [base64.quantumBytes, List.getD_cons_zero, List.getD_cons_succ, List.length_cons,
    List.length_nil, Nat.add_sub_cancel, List.take_succ_cons, List.take_zero, List.getD_nil]
  refine congrArg₂ _ (Fin.ext ?_) rfl
  simp only [Fin.ofNat, Fin.val_mk]; omega

/-- Decoding the base64 rendering of `b` gives `b` back. -/
theorem DecodeString_EncodeToString (b : Bytes) :
    base64.DecodeString (base64.EncodeToString b) = some b := by
  unfold base64.DecodeString
  induction b using base64.EncodeToString.induct with
  | case1 => rfl
  | case2 a =>
    rw [base64.EncodeToString,
      decodeLoop_sextet _ _ _ _ (decodeMap_encodeStd _) (by simp),
      decodeLoop_sextet _ _ _ _ (decodeMap_encodeStd _) (by simp)]
    simp only [List.nil_append, List.cons_append]
    rw [decodeLoop_pad2, quantumBytes_one]
  | case3 a b =>
    rw [base64.EncodeToString,
      decodeLoop_sextet _ _ _ _ (decodeMap_encodeStd _) (by simp),
      decodeLoop_sextet _ _ _ _ (decodeMap_encodeStd _) (by simp),
      decodeLoop_sextet _ _ _ _ (decodeMap_encodeStd _) (by simp)]
    simp only [List.nil_append, List.cons_append]
    rw [decodeLoop_pad1, quantumBytes_two]
  | case4 a b c rest ih =>
    rw [base64.EncodeToString,
      decodeLoop_sextet _ _ _ _ (decodeMap_encodeStd _) (by simp),
      decodeLoop_sextet _ _ _ _ (decodeMap_encodeStd _) (by simp),
      decodeLoop_sextet _ _ _ _ (decodeMap_encodeStd _) (by simp),
      decodeLoop_last_sextet _ _ _ _ (decodeMap_encodeStd _) (by simp), ih]
    simp only [List.nil_append, List.cons_append, Option.map_some']
    rw [quantumBytes_three]
    rfl

/-! ## The codec: `unicode/utf8` -/

theorem DecodeRune_two (p0 b1 : Byte) (X : Bytes) (h0 : 194 ≤ p0.val) (h0' : p0.val < 224)
    (h1 : 128 ≤ b1.val) (h1' : b1.val ≤ 191) :
    utf8.DecodeRune (p0 :: b1 :: X) = (p0.val % 32 * 64 + b1.val % 64, 2) := by
  have e1 : ¬ p0.val < 128 := by omega
  have e2 : ¬ (p0.val < 194 ∨ 244 < p0.val) := by omega
  have e3 : ¬ p0.val = 224 := by omega
  have e4 : ¬ p0.val = 240 := by omega
  have e5 : ¬ p0.val = 237 := by omega
  have e6 : ¬ p0.val = 244 := by omega
  have e7 : ¬ (b1.val < 128 ∨ 191 < b1.val) := by omega
  simp only [utf8.DecodeRune, e1, e2, e3, e4, e5, e6, e7, h0', if_false, if_true]

theorem DecodeRune_three (p0 b1 b2 : Byte) (X : Bytes) (h0 : 224 ≤ p0.val) (h0' : p0.val < 240)
    (h1 : (if p0.val = 224 then 160 else 128) ≤ b1.val)
    (h1' : b1.val ≤ (if p0.val = 237 then 159 else 191))
    (h2 : 128 ≤ b2.val) (h2' : b2.val ≤ 191) :
    utf8.DecodeRune (p0 :: b1 :: b2 :: X) =
      (p0.val % 16 * 4096 + b1.val % 64 * 64 + b2.val % 64, 3) := by
  have e1 : ¬ p0.val < 128 := by omega
  have e2 : ¬ (p0.val < 194 ∨ 244 < p0.val) := by omega
  have e4 : ¬ p0.val = 240 := by omega
  have e6 : ¬ p0.val = 244 := by omega
  have e8 : ¬ p0.val < 224 := by omega
  have e9 : ¬ (b2.val < 128 ∨ 191 < b2.val) := by omega
  have e7 : ¬ (b1.val < (if p0.val = 224 then 160 else 128) ∨
      (if p0.val = 237 then 159 else 191) < b1.val) := by omega
  simp only [utf8.DecodeRune, e1, e2, e4, e6, e7, e8, e9, h0', if_false, if_true]

theorem DecodeRune_four (p0 b1 b2 b3 : Byte) (X : Bytes) (h0 : 240 ≤ p0.val) (h0' : p0.val ≤ 244)
    (h1 : (if p0.val = 240 then 144 else 128) ≤ b1.val)
    (h1' : b1.val ≤ (if p0.val = 244 then 143 else 191))
    (h2 : 128 ≤ b2.val) (h2' : b2.val ≤ 191) (h3 : 128 ≤ b3.val) (h3' : b3.val ≤ 191) :
    utf8.DecodeRune (p0 :: b1 :: b2 :: b3 :: X) =
      (p0.val % 8 * 262144 + b1.val % 64 * 4096 + b2.val % 64 * 64 + b3.val % 64, 4) := by
  have e1 : ¬ p0.val < 128 := by omega
  have e2 : ¬ (p0.val < 194 ∨ 244 < p0.val) := by omega
  have e3 : ¬ p0.val = 224 := by omega
  have e5 : ¬ p0.val = 237 := by omega
  have e8 : ¬ p0.val < 224 := by omega
  have e10 : ¬ p0.val < 240 := by omega
  have e9 : ¬ (b2.val < 128 ∨ 191 < b2.val) := by omega
  have e11 : ¬ (b3.val < 128 ∨ 191 < b3.val) := by omega
  have e7 : ¬ (b1.val < (if p0.val = 240 then 144 else 128) ∨
      (if p0.val = 244 then 143 else 191) < b1.val) := by omega
  simp only [utf8.DecodeRune, e1, e2, e3, e5, e7, e8, e9, e10, e11, if_false, if_true]

theorem lead_byte_cases (n : Nat) :
    n = 224 ∨ n = 237 ∨ n = 240 ∨ n = 244 ∨ (n ≠ 224 ∧ n ≠ 237 ∧ n ≠ 240 ∧ n ≠ 244) := by
  omega

/-- A byte sequence `DecodeRune` accepts as one rune of two to four bytes. -/
theorem DecodeRune_cases (b : Byte) (rest : Bytes) (hb : 128 ≤ b.val)
    (h : ¬ ((utf8.DecodeRune (b :: rest)).1 = utf8.RuneError ∧
      (utf8.DecodeRune (b :: rest)).2 = 1)) :
    (∃ b1 X, rest = b1 :: X ∧ 194 ≤ b.val ∧ b.val < 224 ∧ 128 ≤ b1.val ∧ b1.val ≤ 191) ∨
    (∃ b1 b2 X, rest = b1 :: b2 :: X ∧ 224 ≤ b.val ∧ b.val < 240 ∧
      (if b.val = 224 then 160 else 128) ≤ b1.val ∧
      b1.val ≤ (if b.val = 237 then 159 else 191) ∧ 128 ≤ b2.val ∧ b2.val ≤ 191) ∨
    (∃ b1 b2 b3 X, rest = b1 :: b2 :: b3 :: X ∧ 240 ≤ b.val ∧ b.val ≤ 244 ∧
      (if b.val = 240 then 144 else 128) ≤ b1.val ∧
      b1.val ≤ (if b.val = 244 then 143 else 191) ∧ 128 ≤ b2.val ∧ b2.val ≤ 191 ∧
      128 ≤ b3.val ∧ b3.val ≤ 191) := by
  have e1 : ¬ b.val < 128 := by omega
  by_cases e2 : b.val < 194 ∨ 244 < b.val
  · exact absurd (by simp [utf8.DecodeRune, e1, e2]) h
  cases rest with
  | nil => exact absurd (by simp [utf8.DecodeRune, e1, e2]) h
  | cons b1 rest1 =>
    by_cases e3 : b1.val < (if b.val = 224 then 160 else if b.val = 240 then 144 else 128) ∨
        (if b.val = 237 then 159 else if b.val = 244 then 143 else 191) < b1.val
    · exact absurd (by simp [utf8.DecodeRune, e1, e2, e3]) h
    by_cases e4 : b.val < 224
    · left
      have n1 : ¬ b.val = 224 := by omega
      have n2 : ¬ b.val = 237 := by omega
      have n3 : ¬ b.val = 240 := by omega
      have n4 : ¬ b.val = 244 := by omega
      simp only [n1, n2, n3, n4, if_false] at e3
      exact ⟨b1, rest1, rfl, by omega, e4, by omega, by omega⟩
    cases rest1 with
    | nil => exact absurd (by simp [utf8.DecodeRune, e1, e2, e3, e4]) h
    | cons b2 rest2 =>
      by_cases e5 : b2.val < 128 ∨ 191 < b2.val
      · exact absurd (by simp [utf8.DecodeRune, e1, e2, e3, e4, e5]) h
      by_cases e6 : b.val < 240
      · right; left
        refine ⟨b1, b2, rest2, rfl, by omega, e6, ?_, ?_, by omega, by omega⟩
        · rcases lead_byte_cases b.val with c | c | c | c | c
          · simp only [c] at e3 ⊢; simp at e3 ⊢; omega
          · simp only [c] at e3 ⊢; simp at e3 ⊢; omega
          · omega
          · omega
          · simp only [c.1, c.2.1, c.2.2.1, c.2.2.2, if_false] at e3 ⊢; omega
        · rcases lead_byte_cases b.val with c | c | c | c | c
          · simp only [c] at e3 ⊢; simp at e3 ⊢; omega
          · simp only [c] at e3 ⊢; simp at e3 ⊢; omega
          · omega
          · omega
          · simp only [c.1, c.2.1, c.2.2.1, c.2.2.2, if_false] at e3 ⊢; omega
      cases rest2 with
      | nil => exact absurd (by simp [utf8.DecodeRune, e1, e2, e3, e4, e5, e6]) h
      | cons b3 rest3 =>
        by_cases e7 : b3.val < 128 ∨ 191 < b3.val
        · exact absurd (by simp [utf8.DecodeRune, e1, e2, e3, e4, e5, e6, e7]) h
        right; right
        refine ⟨b1, b2, b3, rest3, rfl, by omega, by omega, ?_, ?_, by omega, by omega,
          by omega, by omega⟩
        · rcases lead_byte_cases b.val with c | c | c | c | c
          · omega
          · omega
          · simp only [c] at e3 ⊢; simp at e3 ⊢; omega
          · simp only [c] at e3 ⊢; simp at e3 ⊢; omega
          · simp only [c.1, c.2.1, c.2.2.1, c.2.2.2, if_false] at e3 ⊢; omega
        · rcases lead_byte_cases b.val with c | c | c | c | c
          · omega
          · omega
          · simp only [c] at e3 ⊢; simp at e3 ⊢; omega
          · simp only [c] at e3 ⊢; simp at e3 ⊢; omega
          · simp only [c.1, c.2.1, c.2.2.1, c.2.2.2, if_false] at e3 ⊢; omega

theorem EncodeRune_two (p0 b1 : Byte) (h0 : 194 ≤ p0.val) (h0' : p0.val < 224)
    (h1 : 128 ≤ b1.val) (h1' : b1.val ≤ 191) :
    utf8.EncodeRune (p0.val % 32 * 64 + b1.val % 64) = [p0, b1] := by
  have e1 : ¬ (p0.val % 32 * 64 + b1.val % 64 ≤ 127) := by omega
  have e2 : p0.val % 32 * 64 + b1.val % 64 ≤ 2047 := by omega
  simp only [utf8.EncodeRune, e1, e2, if_false, if_true]
  refine congrArg₂ _ (Fin.ext ?_) (congrArg₂ _ (Fin.ext ?_) rfl)
  · simp only [Fin.ofNat, Fin.val_mk]; omega
  · simp only [Fin.ofNat, Fin.val_mk]; omega

theorem EncodeRune_three (p0 b1 b2 : Byte) (h0 : 224 ≤ p0.val) (h0' : p0.val < 240)
    (h1 : (if p0.val = 224 then 160 else 128) ≤ b1.val)
    (h1' : b1.val ≤ (if p0.val = 237 then 159 else 191))
    (h2 : 128 ≤ b2.val) (h2' : b2.val ≤ 191) :
    utf8.EncodeRune (p0.val % 16 * 4096 + b1.val % 64 * 64 + b2.val % 64) = [p0, b1, b2] := by
  have hb1 : b1.val < 256 := b1.isLt
  have g1 : p0.val = 224 → 160 ≤ b1.val := by intro c; simpa [c] using h1
  have g2 : p0.val ≠ 224 → 128 ≤ b1.val := by intro c; simpa [c] using h1
  have g3 : p0.val = 237 → b1.val ≤ 159 := by intro c; simpa [c] using h1'
  have g4 : p0.val ≠ 237 → b1.val ≤ 191 := by intro c; simpa [c] using h1'
  have e1 : ¬ (p0.val % 16 * 4096 + b1.val % 64 * 64 + b2.val % 64 ≤ 127) := by omega
  have e2 : ¬ (p0.val % 16 * 4096 + b1.val % 64 * 64 + b2.val % 64 ≤ 2047) := by omega
  have e3 : ¬ (1114111 < p0.val % 16 * 4096 + b1.val % 64 * 64 + b2.val % 64 ∨
      (55296 ≤ p0.val % 16 * 4096 + b1.val % 64 * 64 + b2.val % 64 ∧
        p0.val % 16 * 4096 + b1.val % 64 * 64 + b2.val % 64 ≤ 57343)) := by omega
  have e4 : p0.val % 16 * 4096 + b1.val % 64 * 64 + b2.val % 64 ≤ 65535 := by omega
  simp only [utf8.EncodeRune, e1, e2, e3, e4, if_false, if_true]
  refine congrArg₂ _ (Fin.ext ?_) (congrArg₂ _ (Fin.ext ?_) (congrArg₂ _ (Fin.ext ?_) rfl))
  · simp only [Fin.ofNat, Fin.val_mk]; omega
  · simp only [Fin.ofNat, Fin.val_mk]; omega
  · simp only [Fin.ofNat, Fin.val_mk]; omega

theorem EncodeRune_four (p0 b1 b2 b3 : Byte) (h0 : 240 ≤ p0.val) (h0' : p0.val ≤ 244)
    (h1 : (if p0.val = 240 then 144 else 128) ≤ b1.val)
    (h1' : b1.val ≤ (if p0.val = 244 then 143 else 191))
    (h2 : 128 ≤ b2.val) (h2' : b2.val ≤ 191) (h3 : 128 ≤ b3.val) (h3' : b3.val ≤ 191) :
    utf8.EncodeRune (p0.val % 8 * 262144 + b1.val % 64 * 4096 + b2.val % 64 * 64 + b3.val % 64) =
      [p0, b1, b2, b3] := by
  have hb1 : b1.val < 256 := b1.isLt
  have g1 : p0.val = 240 → 144 ≤ b1.val := by intro c; simpa [c] using h1
  have g2 : p0.val ≠ 240 → 128 ≤ b1.val := by intro c; simpa [c] using h1
  have g3 : p0.val = 244 → b1.val ≤ 143 := by intro c; simpa [c] using h1'
  have g4 : p0.val ≠ 244 → b1.val ≤ 191 := by intro c; simpa [c] using h1'
  have e1 : ¬ (p0.val % 8 * 262144 + b1.val % 64 * 4096 + b2.val % 64 * 64 + b3.val % 64 ≤ 127) := by
    omega
  have e2 : ¬ (p0.val % 8 * 262144 + b1.val % 64 * 4096 + b2.val % 64 * 64 + b3.val % 64 ≤ 2047) := by
    omega
  have e3 : ¬ (1114111 < p0.val % 8 * 262144 + b1.val % 64 * 4096 + b2.val % 64 * 64 + b3.val % 64 ∨
      (55296 ≤ p0.val % 8 * 262144 + b1.val % 64 * 4096 + b2.val % 64 * 64 + b3.val % 64 ∧
        p0.val % 8 * 262144 + b1.val % 64 * 4096 + b2.val % 64 * 64 + b3.val % 64 ≤ 57343)) := by
    omega
  have e4 : ¬ (p0.val % 8 * 262144 + b1.val % 64 * 4096 + b2.val % 64 * 64 + b3.val % 64 ≤ 65535) := by
    omega
  simp only [utf8.EncodeRune, e1, e2, e3, e4, if_false, if_true]
  refine congrArg₂ _ (Fin.ext ?_) (congrArg₂ _ (Fin.ext ?_) (congrArg₂ _ (Fin.ext ?_)
    (congrArg₂ _ (Fin.ext ?_) rfl)))
  · simp only [Fin.ofNat, Fin.val_mk]; omega
  · simp only [Fin.ofNat, Fin.val_mk]; omega
  · simp only [Fin.ofNat, Fin.val_mk]; omega
  · simp only [Fin.ofNat, Fin.val_mk]; omega

/-- A well-formed sequence at the start of `b :: rest`, as one chunk: the
chunk has the width `DecodeRune` reports, its bytes are not ASCII, it decodes
to the same rune whatever follows it, and `EncodeRune` of the rune gives the
chunk back. -/
theorem DecodeRune_chunk (b : Byte) (rest : Bytes) (hb : 128 ≤ b.val)
    (h : ¬ ((utf8.DecodeRune (b :: rest)).1 = utf8.RuneError ∧
      (utf8.DecodeRune (b :: rest)).2 = 1)) :
    ∃ chunk tail, b :: rest = chunk ++ tail ∧
      chunk.length = (utf8.DecodeRune (b :: rest)).2 ∧
      0 < chunk.length ∧
      (∀ c ∈ chunk, 128 ≤ c.val) ∧
      utf8.EncodeRune (utf8.DecodeRune (b :: rest)).1 = chunk ∧
      (∀ X, utf8.DecodeRune (chunk ++ X) = utf8.DecodeRune (b :: rest)) := by
  rcases DecodeRune_cases b rest hb h with
    ⟨b1, X, rfl, h0, h0', h1, h1'⟩ | ⟨b1, b2, X, rfl, h0, h0', h1, h1', h2, h2'⟩ |
    ⟨b1, b2, b3, X, rfl, h0, h0', h1, h1', h2, h2', h3, h3'⟩
  · refine ⟨[b, b1], X, rfl, ?_, by simp, ?_, ?_, ?_⟩
    · rw [DecodeRune_two b b1 X h0 h0' h1 h1']; rfl
    · intro c hc
      simp only [List.mem_cons, List.mem_singleton, List.mem_nil_iff, or_false] at hc
      rcases hc with rfl | rfl <;> omega
    · rw [DecodeRune_two b b1 X h0 h0' h1 h1']
      exact EncodeRune_two b b1 h0 h0' h1 h1'
    · intro Y
      show utf8.DecodeRune (b :: b1 :: Y) = _
      rw [DecodeRune_two b b1 X h0 h0' h1 h1', DecodeRune_two b b1 Y h0 h0' h1 h1']
  · have hb1 : 128 ≤ b1.val := by split at h1 <;> omega
    refine ⟨[b, b1, b2], X, rfl, ?_, by simp, ?_, ?_, ?_⟩
    · rw [DecodeRune_three b b1 b2 X h0 h0' h1 h1' h2 h2']; rfl
    · intro c hc
      simp only [List.mem_cons, List.mem_singleton, List.mem_nil_iff, or_false] at hc
      rcases hc with rfl | rfl | rfl <;> omega
    · rw [DecodeRune_three b b1 b2 X h0 h0' h1 h1' h2 h2']
      exact EncodeRune_three b b1 b2 h0 h0' h1 h1' h2 h2'
    · intro Y
      show utf8.DecodeRune (b :: b1 :: b2 :: Y) = _
      rw [DecodeRune_three b b1 b2 X h0 h0' h1 h1' h2 h2',
        DecodeRune_three b b1 b2 Y h0 h0' h1 h1' h2 h2']
  · have hb1 : 128 ≤ b1.val := by split at h1 <;> omega
    refine ⟨[b, b1, b2, b3], X, rfl, ?_, by simp, ?_, ?_, ?_⟩
    · rw [DecodeRune_four b b1 b2 b3 X h0 h0' h1 h1' h2 h2' h3 h3']; rfl
    · intro c hc
      simp only [List.mem_cons, List.mem_singleton, List.mem_nil_iff, or_false] at hc
      rcases hc with rfl | rfl | rfl | rfl <;> omega
    · rw [DecodeRune_four b b1 b2 b3 X h0 h0' h1 h1' h2 h2' h3 h3']
      exact EncodeRune_four b b1 b2 b3 h0 h0' h1 h1' h2 h2' h3 h3'
    · intro Y
      show utf8.DecodeRune (b :: b1 :: b2 :: b3 :: Y) = _
      rw [DecodeRune_four b b1 b2 b3 X h0 h0' h1 h1' h2 h2' h3 h3',
        DecodeRune_four b b1 b2 b3 Y h0 h0' h1 h1' h2 h2' h3 h3']

/-! ## The codec: JSON strings -/

theorem scanString_plain (c : Byte) (s : Bytes) (h1 : c.val ≠ 34) (h2 : c.val ≠ 92)
    (h3 : 32 ≤ c.val) :
    json.scanString (c :: s) = (json.scanString s).map (fun p => (c :: p.1, p.2)) := by
  have h4 : ¬ c.val < 32 := by omega
  rw [json.scanString.eq_def]
  simp only [h1, h2, h4, if_false]

theorem scanString_plain_chunk (chunk s : Bytes)
    (h : ∀ c ∈ chunk, c.val ≠ 34 ∧ c.val ≠ 92 ∧ 32 ≤ c.val) :
    json.scanString (chunk ++ s) = (json.scanString s).map (fun p => (chunk ++ p.1, p.2)) := by
  induction chunk with
  | nil => simp
  | cons c t ih =>
    have hc := h c (List.mem_cons_self _ _)
    rw [List.cons_append, scanString_plain c _ hc.1 hc.2.1 hc.2.2,
      ih (fun x hx => h x (List.mem_cons_of_mem _ hx)), Option.map_map]
    rfl

theorem scanString_escape (e : Byte) (s : Bytes)
    (he : e.val = 98 ∨ e.val = 102 ∨ e.val = 110 ∨ e.val = 114 ∨ e.val = 116 ∨
      e.val = 92 ∨ e.val = 47 ∨ e.val = 34) :
    json.scanString (92 :: e :: s) =
      (json.scanString s).map (fun p => (92 :: e :: p.1, p.2)) := by
  rw [json.scanString.eq_def]
  have h1 : ¬ ((92 : Byte).val = 34) := by decide
  have h2 : (92 : Byte).val = 92 := by decide
  simp only [if_neg h1, if_pos h2, if_pos he]

theorem scanString_u (h1 h2 h3 h4 : Byte) (s : Bytes)
    (hh : url.ishex h1 = true ∧ url.ishex h2 = true ∧ url.ishex h3 = true ∧
      url.ishex h4 = true) :
    json.scanString (92 :: 117 :: h1 :: h2 :: h3 :: h4 :: s) =
      (json.scanString s).map (fun p => (92 :: 117 :: h1 :: h2 :: h3 :: h4 :: p.1, p.2)) := by
  rw [json.scanString.eq_def]
  have e1 : ¬ ((92 : Byte).val = 34) := by decide
  have e2 : (92 : Byte).val = 92 := by decide
  have e3 : ¬ ((117 : Byte).val = 98 ∨ (117 : Byte).val = 102 ∨ (117 : Byte).val = 110 ∨
      (117 : Byte).val = 114 ∨ (117 : Byte).val = 116 ∨ (117 : Byte).val = 92 ∨
      (117 : Byte).val = 47 ∨ (117 : Byte).val = 34) := by decide
  have e4 : (117 : Byte).val = 117 := by decide
  simp only [if_neg e1, if_pos e2, if_neg e3, if_pos e4, hh, and_self, if_true]

set_option maxRecDepth 100000 in
theorem hex_ishex : ∀ b : Byte, url.ishex (json.hex (b.val / 16)) = true ∧
    url.ishex (json.hex (b.val % 16)) = true := by
  decide

set_option maxRecDepth 100000 in
theorem escapeByte_cases : ∀ b : Byte, b.val < 128 → json.htmlSafeSet b = false →
    (json.escapeByte b = [92, b] ∧ (b.val = 92 ∨ b.val = 34)) ∨
    (json.escapeByte b = [92, 98] ∧ b = 8) ∨
    (json.escapeByte b = [92, 102] ∧ b = 12) ∨
    (json.escapeByte b = [92, 110] ∧ b = 10) ∨
    (json.escapeByte b = [92, 114] ∧ b = 13) ∨
    (json.escapeByte b = [92, 116] ∧ b = 9) ∨
    (json.escapeByte b = [92, 117, 48, 48, json.hex (b.val / 16), json.hex (b.val % 16)] ∧
      json.getu4 [92, 117, 48, 48, json.hex (b.val / 16), json.hex (b.val % 16)] = some b.val ∧
      utf16.IsSurrogate b.val = false ∧ utf8.EncodeRune b.val = [b]) := by
  decide

set_option maxRecDepth 100000 in
theorem htmlSafeSet_plain : ∀ b : Byte, json.htmlSafeSet b = true →
    b.val ≠ 34 ∧ b.val ≠ 92 ∧ 32 ≤ b.val ∧ b.val < 128 := by
  decide

/-- The scanner reads what `appendString` wrote for a string, up to the
closing quote. -/
theorem scanString_appendStringAux (n : Nat) (U s : Bytes) :
    json.scanString (json.appendStringAux n U ++ s) =
      (json.scanString s).map (fun p => (json.appendStringAux n U ++ p.1, p.2)) := by
  induction n generalizing U with
  | zero => simp [json.appendStringAux]
  | succ n ih =>
    cases U with
    | nil => simp [json.appendStringAux]
    | cons b rest =>
      by_cases hb : b.val < 128
      · by_cases hs : json.htmlSafeSet b = true
        · have hp := htmlSafeSet_plain b hs
          simp only [json.appendStringAux, hb, hs, if_true, List.cons_append]
          rw [scanString_plain b _ hp.1 hp.2.1 hp.2.2.1, ih, Option.map_map]
          rfl
        · have hs' : json.htmlSafeSet b = false := by simpa using hs
          simp only [json.appendStringAux, hb, hs', if_true, Bool.false_eq_true, if_false,
            List.append_assoc]
          rcases escapeByte_cases b hb hs' with ⟨h, hv⟩ | ⟨h, _⟩ | ⟨h, _⟩ | ⟨h, _⟩ | ⟨h, _⟩ |
            ⟨h, _⟩ | ⟨h, _⟩
          · rw [h]
            simp only [List.cons_append, List.nil_append]
            rw [scanString_escape b _ (by omega), ih, Option.map_map]; rfl
          · rw [h]
            simp only [List.cons_append, List.nil_append]
            rw [scanString_escape _ _ (by decide), ih, Option.map_map]; rfl
          · rw [h]
            simp only [List.cons_append, List.nil_append]
            rw [scanString_escape _ _ (by decide), ih, Option.map_map]; rfl
          · rw [h]
            simp only [List.cons_append, List.nil_append]
            rw [scanString_escape _ _ (by decide), ih, Option.map_map]; rfl
          · rw [h]
            simp only [List.cons_append, List.nil_append]
            rw [scanString_escape _ _ (by decide), ih, Option.map_map]; rfl
          · rw [h]
            simp only [List.cons_append, List.nil_append]
            rw [scanString_escape _ _ (by decide), ih, Option.map_map]; rfl
          · rw [h]
            simp only [List.cons_append, List.nil_append]
            rw [scanString_u _ _ _ _ _ ⟨by decide, by decide, (hex_ishex b).1, (hex_ishex b).2⟩,
              ih, Option.map_map]
            rfl
      · by_cases he : (utf8.DecodeRune (b :: rest)).1 = utf8.RuneError ∧
            (utf8.DecodeRune (b :: rest)).2 = 1
        · simp only [json.appendStringAux, hb, he, and_self, if_true, if_false,
            List.cons_append, List.nil_append]
          rw [scanString_u _ _ _ _ _ ⟨by decide, by decide, by decide, by decide⟩, ih,
            Option.map_map]
          rfl
        · obtain ⟨chunk, tail, hsplit, hlen, hpos, hhigh, henc, hdec⟩ :=
            DecodeRune_chunk b rest (by omega) he
          have htake : (b :: rest).take (utf8.DecodeRune (b :: rest)).2 = chunk := by
            rw [← hlen, hsplit]; simp
          have hdrop : (b :: rest).drop (utf8.DecodeRune (b :: rest)).2 = tail := by
            rw [← hlen, hsplit]; simp
          by_cases h28 : (utf8.DecodeRune (b :: rest)).1 = 8232 ∨
              (utf8.DecodeRune (b :: rest)).1 = 8233
          · simp only [json.appendStringAux, hb, he, h28, if_true, if_false, hdrop,
              List.cons_append, List.nil_append]
            have hx : url.ishex (json.hex ((utf8.DecodeRune (b :: rest)).1 % 16)) = true := by
              rcases h28 with h | h <;> rw [h] <;> decide
            rw [scanString_u _ _ _ _ _ ⟨by decide, by decide, by decide, hx⟩, ih,
              Option.map_map]
            rfl
          · simp only [json.appendStringAux, hb, he, h28, if_false, htake, hdrop,
              List.append_assoc]
            rw [scanString_plain_chunk chunk _
              (fun c hc => by have := hhigh c hc; omega), ih, Option.map_map]
            rfl

theorem unquoteAux_nil (f : Nat) : json.unquoteAux f [] = some [] := by
  cases f <;> rfl

theorem unquoteAux_plain (f : Nat) (c : Byte) (s : Bytes) (h1 : c.val ≠ 34) (h2 : c.val ≠ 92)
    (h3 : 32 ≤ c.val) (h4 : c.val < 128) :
    json.unquoteAux (f + 1) (c :: s) = (json.unquoteAux f s).map (fun t => c :: t) := by
  have h5 : ¬ (c.val = 34 ∨ c.val < 32) := by omega
  rw [json.unquoteAux.eq_def]
  simp only [if_neg h2, if_neg h5, if_pos h4]

theorem unquoteAux_quote_or_backslash (f : Nat) (b : Byte) (s : Bytes)
    (hb : b.val = 92 ∨ b.val = 34) :
    json.unquoteAux (f + 1) (92 :: b :: s) = (json.unquoteAux f s).map (fun t => b :: t) := by
  have h1 : (92 : Byte).val = 92 := by decide
  have h2 : b.val = 34 ∨ b.val = 92 ∨ b.val = 47 ∨ b.val = 39 := by omega
  rw [json.unquoteAux.eq_def]
  simp only [if_pos h1, if_pos h2]

theorem unquoteAux_b (f : Nat) (s : Bytes) :
    json.unquoteAux (f + 1) (92 :: 98 :: s) = (json.unquoteAux f s).map (fun t => 8 :: t) := by
  rw [json.unquoteAux.eq_def]; rfl

theorem unquoteAux_f (f : Nat) (s : Bytes) :
    json.unquoteAux (f + 1) (92 :: 102 :: s) = (json.unquoteAux f s).map (fun t => 12 :: t) := by
  rw [json.unquoteAux.eq_def]; rfl

theorem unquoteAux_n (f : Nat) (s : Bytes) :
    json.unquoteAux (f + 1) (92 :: 110 :: s) = (json.unquoteAux f s).map (fun t => 10 :: t) := by
  rw [json.unquoteAux.eq_def]; rfl

theorem unquoteAux_r (f : Nat) (s : Bytes) :
    json.unquoteAux (f + 1) (92 :: 114 :: s) = (json.unquoteAux f s).map (fun t => 13 :: t) := by
  rw [json.unquoteAux.eq_def]; rfl

theorem unquoteAux_t (f : Nat) (s : Bytes) :
    json.unquoteAux (f + 1) (92 :: 116 :: s) = (json.unquoteAux f s).map (fun t => 9 :: t) := by
  rw [json.unquoteAux.eq_def]; rfl

theorem getu4_tail (c u h1 h2 h3 h4 : Byte) (s : Bytes) :
    json.getu4 (c :: u :: h1 :: h2 :: h3 :: h4 :: s) = json.getu4 [c, u, h1, h2, h3, h4] := rfl

theorem unquoteAux_u4 (f : Nat) (h1 h2 h3 h4 : Byte) (s : Bytes) (r : Nat)
    (hr : json.getu4 [92, 117, h1, h2, h3, h4] = some r) (hns : utf16.IsSurrogate r = false) :
    json.unquoteAux (f + 1) (92 :: 117 :: h1 :: h2 :: h3 :: h4 :: s) =
      (json.unquoteAux f s).map (fun t => utf8.EncodeRune r ++ t) := by
  have e1 : (92 : Byte).val = 92 := by decide
  have e2 : ¬ ((117 : Byte).val = 34 ∨ (117 : Byte).val = 92 ∨ (117 : Byte).val = 47 ∨
      (117 : Byte).val = 39) := by decide
  have e3 : ¬ (117 : Byte).val = 98 := by decide
  have e4 : ¬ (117 : Byte).val = 102 := by decide
  have e5 : ¬ (117 : Byte).val = 110 := by decide
  have e6 : ¬ (117 : Byte).val = 114 := by decide
  have e7 : ¬ (117 : Byte).val = 116 := by decide
  have e8 : (117 : Byte).val = 117 := by decide
  rw [json.unquoteAux.eq_def]
  simp only [if_pos e1, if_neg e2, if_neg e3, if_neg e4, if_neg e5, if_neg e6, if_neg e7,
    if_pos e8, getu4_tail, hr, hns, Bool.false_eq_true, if_false, List.drop_succ_cons,
    List.drop_zero]

theorem unquoteAux_chunk (f : Nat) (chunk s : Bytes) (r : Nat) (hpos : 0 < chunk.length)
    (hhigh : ∀ c ∈ chunk, 128 ≤ c.val)
    (hdec : utf8.DecodeRune (chunk ++ s) = (r, chunk.length))
    (henc : utf8.EncodeRune r = chunk) :
    json.unquoteAux (f + 1) (chunk ++ s) = (json.unquoteAux f s).map (fun t => chunk ++ t) := by
  cases chunk with
  | nil => simp at hpos
  | cons c t =>
    have hc := hhigh c (List.mem_cons_self _ _)
    have e1 : ¬ c.val = 92 := by omega
    have e2 : ¬ (c.val = 34 ∨ c.val < 32) := by omega
    have e3 : ¬ c.val < 128 := by omega
    rw [List.cons_append] at hdec ⊢
    rw [json.unquoteAux.eq_def]
    simp only [if_neg e1, if_neg e2, if_neg e3, hdec, henc]
    have hd : List.drop (c :: t).length (c :: (t ++ s)) = s := by
      rw [← List.cons_append]; simp
    rw [hd]

/-- Unquoting what `appendString` wrote for `U` gives `U` coerced to valid
UTF-8. -/
theorem unquoteAux_appendStringAux (n : Nat) (U : Bytes) (f : Nat)
    (hf : (json.appendStringAux n U).length ≤ f) :
    json.unquoteAux f (json.appendStringAux n U) = some (json.coerceAux n U) := by
  induction n generalizing U f with
  | zero => simp [json.appendStringAux, json.coerceAux, unquoteAux_nil]
  | succ n ih =>
    cases U with
    | nil => simp [json.appendStringAux, json.coerceAux, unquoteAux_nil]
    | cons b rest =>
      by_cases hb : b.val < 128
      · by_cases hs : json.htmlSafeSet b = true
        · have hp := htmlSafeSet_plain b hs
          simp only [json.appendStringAux, json.coerceAux, hb, hs, if_true, List.length_cons]
            at hf ⊢
          obtain ⟨g, rfl⟩ : ∃ g, f = g + 1 := ⟨f - 1, by omega⟩
          rw [unquoteAux_plain g b _ hp.1 hp.2.1 hp.2.2.1 hp.2.2.2, ih rest g (by omega)]
          rfl
        · have hs' : json.htmlSafeSet b = false := by simpa using hs
          simp only [json.appendStringAux, json.coerceAux, hb, hs', if_true, Bool.false_eq_true,
            if_false, List.length_append] at hf ⊢
          rcases escapeByte_cases b hb hs' with ⟨h, hv⟩ | ⟨h, hv⟩ | ⟨h, hv⟩ | ⟨h, hv⟩ | ⟨h, hv⟩ |
            ⟨h, hv⟩ | ⟨h, hg, hsur, henc⟩
          · rw [h] at hf ⊢
            simp only [List.cons_append, List.nil_append, List.length_cons, List.length_nil] at hf ⊢
            obtain ⟨g, rfl⟩ : ∃ g, f = g + 1 := ⟨f - 1, by omega⟩
            rw [unquoteAux_quote_or_backslash g b _ hv, ih rest g (by omega)]
            rfl
          · rw [h] at hf ⊢
            simp only [List.cons_append, List.nil_append, List.length_cons, List.length_nil] at hf ⊢
            obtain ⟨g, rfl⟩ : ∃ g, f = g + 1 := ⟨f - 1, by omega⟩
            rw [unquoteAux_b, ih rest g (by omega), hv]
            rfl
          · rw [h] at hf ⊢
            simp only [List.cons_append, List.nil_append, List.length_cons, List.length_nil] at hf ⊢
            obtain ⟨g, rfl⟩ : ∃ g, f = g + 1 := ⟨f - 1, by omega⟩
            rw [unquoteAux_f, ih rest g (by omega), hv]
            rfl
          · rw [h] at hf ⊢
            simp only [List.cons_append, List.nil_append, List.length_cons, List.length_nil] at hf ⊢
            obtain ⟨g, rfl⟩ : ∃ g, f = g + 1 := ⟨f - 1, by omega⟩
            rw [unquoteAux_n, ih rest g (by omega), hv]
            rfl
          · rw [h] at hf ⊢
            simp only [List.cons_append, List.nil_append, List.length_cons, List.length_nil] at hf ⊢
            obtain ⟨g, rfl⟩ : ∃ g, f = g + 1 := ⟨f - 1, by omega⟩
            rw [unquoteAux_r, ih rest g (by omega), hv]
            rfl
          · rw [h] at hf ⊢
            simp only [List.cons_append, List.nil_append, List.length_cons, List.length_nil] at hf ⊢
            obtain ⟨g, rfl⟩ : ∃ g, f = g + 1 := ⟨f - 1, by omega⟩
            rw [unquoteAux_t, ih rest g (by omega), hv]
            rfl
          · rw [h] at hf ⊢
            simp only [List.cons_append, List.nil_append, List.length_cons, List.length_nil] at hf ⊢
            obtain ⟨g, rfl⟩ : ∃ g, f = g + 1 := ⟨f - 1, by omega⟩
            rw [unquoteAux_u4 g _ _ _ _ _ b.val hg hsur, ih rest g (by omega), henc]
            rfl
      · by_cases he : (utf8.DecodeRune (b :: rest)).1 = utf8.RuneError ∧
            (utf8.DecodeRune (b :: rest)).2 = 1
        · simp only [json.appendStringAux, json.coerceAux, hb, he, and_self, if_true, if_false,
            List.cons_append, List.nil_append, List.length_cons] at hf ⊢
          obtain ⟨g, rfl⟩ : ∃ g, f = g + 1 := ⟨f - 1, by omega⟩
          rw [unquoteAux_u4 g _ _ _ _ _ 65533 (by decide) (by decide), ih rest g (by omega)]
          rfl
        · obtain ⟨chunk, tail, hsplit, hlen, hpos, hhigh, henc, hdec⟩ :=
            DecodeRune_chunk b rest (by omega) he
          have htake : (b :: rest).take (utf8.DecodeRune (b :: rest)).2 = chunk := by
            rw [← hlen, hsplit]; simp
          have hdrop : (b :: rest).drop (utf8.DecodeRune (b :: rest)).2 = tail := by
            rw [← hlen, hsplit]; simp
          by_cases h28 : (utf8.DecodeRune (b :: rest)).1 = 8232 ∨
              (utf8.DecodeRune (b :: rest)).1 = 8233
          · simp only [json.appendStringAux, json.coerceAux, hb, he, h28, if_true, if_false,
              htake, hdrop, List.cons_append, List.nil_append, List.length_cons] at hf ⊢
            obtain ⟨g, rfl⟩ : ∃ g, f = g + 1 := ⟨f - 1, by omega⟩
            have hg : json.getu4 [92, 117, 50, 48, 50,
                json.hex ((utf8.DecodeRune (b :: rest)).1 % 16)] =
                some (utf8.DecodeRune (b :: rest)).1 := by
              rcases h28 with h | h <;> rw [h] <;> decide
            have hsur : utf16.IsSurrogate (utf8.DecodeRune (b :: rest)).1 = false := by
              rcases h28 with h | h <;> rw [h] <;> decide
            rw [unquoteAux_u4 g _ _ _ _ _ _ hg hsur, ih tail g (by omega), henc]
            rfl
          · simp only [json.appendStringAux, json.coerceAux, hb, he, h28, if_false, htake, hdrop,
              List.length_append] at hf ⊢
            obtain ⟨g, rfl⟩ : ∃ g, f = g + 1 := ⟨f - 1, by omega⟩
            rw [unquoteAux_chunk g chunk _ (utf8.DecodeRune (b :: rest)).1 hpos hhigh
              (by rw [hdec, hlen]) henc, ih tail g (by omega)]
            rfl

theorem validAux_fuel (n : Nat) (p : Bytes) (h : p.length ≤ n) :
    utf8.validAux n p = utf8.validAux p.length p := by
  induction n using Nat.strong_induction_on generalizing p with
  | _ n ih =>
    cases p with
    | nil => cases n <;> rfl
    | cons c rest =>
      obtain ⟨m, rfl⟩ : ∃ m, n = m + 1 := ⟨n - 1, by simp at h; omega⟩
      simp only [List.length_cons, utf8.validAux]
      split
      · rfl
      · have hl : ((c :: rest).drop (utf8.DecodeRune (c :: rest)).2).length ≤ rest.length := by
          have hsz : 1 ≤ (utf8.DecodeRune (c :: rest)).2 := by
            by_cases hc : c.val < 128
            · simp [utf8.DecodeRune, hc]
            · rename_i hne
              obtain ⟨chunk, tail, _, hlen, hpos, _⟩ := DecodeRune_chunk c rest (by omega) hne
              omega
          simp only [List.length_drop, List.length_cons]; omega
        simp only [List.length_cons] at h
        rw [ih m (by omega) _ (by omega), ih rest.length (by omega) _ hl]

/-- Coercion leaves valid UTF-8 as it is. -/
theorem coerceAux_valid (n : Nat) (U : Bytes) (hn : U.length ≤ n)
    (hv : utf8.Valid U = true) : json.coerceAux n U = U := by
  induction n generalizing U with
  | zero =>
    have : U = [] := List.eq_nil_of_length_eq_zero (by omega)
    simp [json.coerceAux, this]
  | succ n ih =>
    cases U with
    | nil => simp [json.coerceAux]
    | cons b rest =>
      simp only [List.length_cons] at hn
      unfold utf8.Valid at hv
      simp only [List.length_cons, utf8.validAux] at hv
      by_cases hb : b.val < 128
      · have hd : utf8.DecodeRune (b :: rest) = (b.val, 1) := by simp [utf8.DecodeRune, hb]
        have hne : ¬ (b.val = utf8.RuneError ∧ True) := by
          simp only [utf8.RuneError]; omega
        simp only [hd, List.drop_succ_cons, List.drop_zero] at hv
        simp only [json.coerceAux, hb, if_true]
        rw [ih rest (by omega)]
        simpa [utf8.Valid, utf8.RuneError, show ¬ b.val = 65533 by omega] using hv
      · by_cases he : (utf8.DecodeRune (b :: rest)).1 = utf8.RuneError ∧
            (utf8.DecodeRune (b :: rest)).2 = 1
        · simp [he] at hv
        · obtain ⟨chunk, tail, hsplit, hlen, hpos, hhigh, henc, hdec⟩ :=
            DecodeRune_chunk b rest (by omega) he
          have htake : (b :: rest).take (utf8.DecodeRune (b :: rest)).2 = chunk := by
            rw [← hlen, hsplit]; simp
          have hdrop : (b :: rest).drop (utf8.DecodeRune (b :: rest)).2 = tail := by
            rw [← hlen, hsplit]; simp
          have hl : (b :: rest).length = chunk.length + tail.length := by
            rw [hsplit, List.length_append]
          simp only [List.length_cons] at hl
          simp only [he, if_false, hdrop] at hv
          rw [validAux_fuel _ _ (by omega)] at hv
          simp only [json.coerceAux, hb, he, if_false, htake, hdrop]
          rw [ih tail (by omega) hv, hsplit]

/-! ## The codec: JSON numbers -/

theorem decimalDigits_shape (fuel n : Nat) (h : n < fuel) :
    ∃ d ds, decimalDigits fuel n = d :: ds ∧ (∀ c ∈ ds, json.isDigit c = true) ∧
      ((n = 0 ∧ d.val = 48 ∧ ds = []) ∨ (49 ≤ d.val ∧ d.val ≤ 57)) := by
  induction fuel generalizing n with
  | zero => omega
  | succ f ih =>
    unfold decimalDigits
    split
    · refine ⟨digitChar n, [], rfl, by simp, ?_⟩
      rw [digitChar_val]
      by_cases h0 : n = 0
      · exact Or.inl ⟨h0, by omega, rfl⟩
      · exact Or.inr (by omega)
    · obtain ⟨d, ds, hd, hds, hcase⟩ := ih (n / 10) (by omega)
      refine ⟨d, ds ++ [digitChar n], by rw [hd]; rfl, ?_, ?_⟩
      · intro c hc
        rw [List.mem_append] at hc
        rcases hc with hc | hc
        · exact hds c hc
        · simp only [List.mem_singleton] at hc
          subst hc
          simp only [json.isDigit, digitChar_val, Bool.and_eq_true, decide_eq_true_eq]
          omega
      · rcases hcase with ⟨h0, _⟩ | h1
        · omega
        · exact Or.inr h1

theorem takeDigits_append (ds : Bytes) (c : Byte) (r : Bytes)
    (hds : ∀ x ∈ ds, json.isDigit x = true) (hc : json.isDigit c = false) :
    json.takeDigits (ds ++ c :: r) = (ds, c :: r) := by
  induction ds with
  | nil => simp [json.takeDigits, hc]
  | cons d t ih =>
    have hd := hds d (List.mem_cons_self _ _)
    simp only [List.cons_append, json.takeDigits, hd, if_true, List.append_eq,
      ih (fun x hx => hds x (List.mem_cons_of_mem _ hx))]

theorem scanFraction_end (c : Byte) (r : Bytes) (hc : c.val = 44 ∨ c.val = 125) :
    json.scanFraction (c :: r) = some ([], c :: r) := by
  have h1 : ¬ c.val = 46 := by omega
  have h2 : ¬ (c.val = 101 ∨ c.val = 69) := by omega
  simp only [json.scanFraction, json.scanExponent, if_neg h1, if_neg h2]

theorem isDigit_end (c : Byte) (hc : c.val = 44 ∨ c.val = 125) : json.isDigit c = false := by
  simp only [json.isDigit, Bool.and_eq_false_iff, decide_eq_false_iff_not]
  omega

theorem scanInteger_decimalNat (n : Nat) (c : Byte) (r : Bytes)
    (hc : c.val = 44 ∨ c.val = 125) :
    json.scanInteger (decimalNat n ++ c :: r) = some (decimalNat n, c :: r) := by
  obtain ⟨d, ds, hd, hds, hcase⟩ := decimalDigits_shape (n + 1) n (by omega)
  unfold decimalNat
  rw [hd]
  rcases hcase with ⟨_, h48, hnil⟩ | ⟨h49, h57⟩
  · subst hnil
    simp only [List.cons_append, List.nil_append, json.scanInteger, if_pos h48,
      scanFraction_end c r hc, Option.map_some']
  · have h1 : ¬ d.val = 48 := by omega
    have h2 : 49 ≤ d.val ∧ d.val ≤ 57 := ⟨h49, h57⟩
    simp only [List.cons_append, json.scanInteger, if_neg h1, if_pos h2,
      takeDigits_append ds c r hds (isDigit_end c hc), scanFraction_end c r hc,
      Option.map_some', List.append_nil]

theorem decimal_head (x : Int) :
    ∃ d ds, decimal x = d :: ds ∧ (d.val = 45 ∨ (48 ≤ d.val ∧ d.val ≤ 57)) := by
  unfold decimal
  split
  · exact ⟨45, _, rfl, Or.inl (by decide)⟩
  · obtain ⟨d, ds, hd, _, hcase⟩ := decimalDigits_shape (x.natAbs + 1) x.natAbs (by omega)
    refine ⟨d, ds, hd, Or.inr ?_⟩
    rcases hcase with ⟨_, h, _⟩ | h <;> omega

/-- The scanner reads the decimal rendering of an integer as one number, up
to the `,` or the closing brace that follows it. -/
theorem scanNumber_decimal (x : Int) (c : Byte) (r : Bytes) (hc : c.val = 44 ∨ c.val = 125) :
    json.scanNumber (decimal x ++ c :: r) = some (decimal x, c :: r) := by
  unfold decimal
  split
  · have h45 : (45 : Byte).val = 45 := by decide
    simp only [List.cons_append, json.scanNumber, if_pos h45, scanInteger_decimalNat _ c r hc,
      Option.map_some']
  · obtain ⟨d, ds, hd, _, hcase⟩ := decimalDigits_shape (x.natAbs + 1) x.natAbs (by omega)
    have hne : ¬ d.val = 45 := by rcases hcase with ⟨_, h, _⟩ | h <;> omega
    have hs := scanInteger_decimalNat x.natAbs c r hc
    unfold decimalNat at hs ⊢
    rw [hd] at hs ⊢
    simp only [List.cons_append, json.scanNumber, if_neg hne] at hs ⊢
    exact hs

theorem all_isDigit_decimalNat (n : Nat) : (decimalNat n).all json.isDigit = true := by
  rw [List.all_eq_true]
  intro c hc
  have := decimalDigits_isDigit (n + 1) n c hc
  simp only [json.isDigit, Bool.and_eq_true, decide_eq_true_eq]
  exact this

/-- The text `decimal x` denotes the integer `x`. -/
theorem integerOfText_decimal (x : Int) : json.integerOfText (decimal x) = some x := by
  unfold decimal
  split
  · rename_i hneg
    have h45 : (45 : Byte).val = 45 := by decide
    have hne : (decimalNat x.natAbs).isEmpty = false := by
      obtain ⟨d, ds, hd, _⟩ := decimalDigits_shape (x.natAbs + 1) x.natAbs (by omega)
      unfold decimalNat; rw [hd]; rfl
    simp only [json.integerOfText, if_pos h45, hne, all_isDigit_decimalNat,
      digitsValue_decimalNat, Bool.not_false, and_self, if_true, Option.some.injEq]
    omega
  · rename_i hpos
    obtain ⟨d, ds, hd, _, hcase⟩ := decimalDigits_shape (x.natAbs + 1) x.natAbs (by omega)
    have hne : ¬ d.val = 45 := by rcases hcase with ⟨_, h, _⟩ | h <;> omega
    have hall := all_isDigit_decimalNat x.natAbs
    have hval := digitsValue_decimalNat x.natAbs
    unfold decimalNat at hall hval ⊢
    rw [hd] at hall hval ⊢
    simp only [json.integerOfText, if_neg hne, hall, if_true, hval, Option.some.injEq]
    omega

/-! ## The codec: tokens of a marshalled cookie -/

theorem tokenize_nil (f : Nat) : json.tokenize f [] = some [] := by
  cases f <;> rfl

theorem tokenize_cons (f : Nat) (c : Byte) (s : Bytes) (t : json.Token) (rest : Bytes)
    (h1 : json.isSpace c = false) (h2 : json.scanToken c s = some (t, rest)) :
    json.tokenize (f + 1) (c :: s) = (json.tokenize f rest).map (fun ts => t :: ts) := by
  rw [json.tokenize.eq_def]
  simp only [h1, Bool.false_eq_true, if_false, h2]

theorem tokenize_beginObject (f : Nat) (s : Bytes) :
    json.tokenize (f + 1) (123 :: s) =
      (json.tokenize f s).map (fun t => json.Token.beginObject :: t) :=
  tokenize_cons f 123 s _ s (by decide) (by
    have e2 : (123 : Byte).val = 123 := by decide
    simp only [json.scanToken, if_pos e2])

theorem tokenize_endObject (f : Nat) (s : Bytes) :
    json.tokenize (f + 1) (125 :: s) =
      (json.tokenize f s).map (fun t => json.Token.endObject :: t) :=
  tokenize_cons f 125 s _ s (by decide) (by
    have e2 : ¬ (125 : Byte).val = 123 := by decide
    have e3 : (125 : Byte).val = 125 := by decide
    simp only [json.scanToken, if_neg e2, if_pos e3])

theorem tokenize_colon (f : Nat) (s : Bytes) :
    json.tokenize (f + 1) (58 :: s) =
      (json.tokenize f s).map (fun t => json.Token.colon :: t) :=
  tokenize_cons f 58 s _ s (by decide) (by
    have e2 : ¬ (58 : Byte).val = 123 := by decide
    have e3 : ¬ (58 : Byte).val = 125 := by decide
    have e4 : ¬ (58 : Byte).val = 91 := by decide
    have e5 : ¬ (58 : Byte).val = 93 := by decide
    have e6 : (58 : Byte).val = 58 := by decide
    simp only [json.scanToken, if_neg e2, if_neg e3, if_neg e4, if_neg e5, if_pos e6])

theorem tokenize_comma (f : Nat) (s : Bytes) :
    json.tokenize (f + 1) (44 :: s) =
      (json.tokenize f s).map (fun t => json.Token.comma :: t) :=
  tokenize_cons f 44 s _ s (by decide) (by
    have e2 : ¬ (44 : Byte).val = 123 := by decide
    have e3 : ¬ (44 : Byte).val = 125 := by decide
    have e4 : ¬ (44 : Byte).val = 91 := by decide
    have e5 : ¬ (44 : Byte).val = 93 := by decide
    have e6 : ¬ (44 : Byte).val = 58 := by decide
    have e7 : (44 : Byte).val = 44 := by decide
    simp only [json.scanToken, if_neg e2, if_neg e3, if_neg e4, if_neg e5, if_neg e6,
      if_pos e7])

theorem tokenize_null (f : Nat) (s : Bytes) :
    json.tokenize (f + 1) (110 :: 117 :: 108 :: 108 :: s) =
      (json.tokenize f s).map (fun t => json.Token.null :: t) :=
  tokenize_cons f 110 _ _ s (by decide) (by
    have e2 : ¬ (110 : Byte).val = 123 := by decide
    have e3 : ¬ (110 : Byte).val = 125 := by decide
    have e4 : ¬ (110 : Byte).val = 91 := by decide
    have e5 : ¬ (110 : Byte).val = 93 := by decide
    have e6 : ¬ (110 : Byte).val = 58 := by decide
    have e7 : ¬ (110 : Byte).val = 44 := by decide
    have e8 : ¬ (110 : Byte).val = 34 := by decide
    have e9 : ¬ ((110 : Byte).val = 45 ∨ json.isDigit (110 : Byte) = true) := by decide
    have e10 : ¬ (110 : Byte).val = 116 := by decide
    have e11 : ¬ (110 : Byte).val = 102 := by decide
    have e12 : (110 : Byte).val = 110 := by decide
    have e13 : json.scanLiteral [117, 108, 108] (117 :: 108 :: 108 :: s) = some s := by
      simp [json.scanLiteral, List.isPrefixOf]
    simp only [json.scanToken, if_neg e2, if_neg e3, if_neg e4, if_neg e5, if_neg e6, if_neg e7,
      if_neg e8, if_neg e9, if_neg e10, if_neg e11, if_pos e12, e13, Option.map_some'])

theorem tokenize_string (f : Nat) (raw str s : Bytes)
    (hscan : json.scanString (raw ++ 34 :: s) = some (raw, s))
    (hunq : json.unquote raw = some str) :
    json.tokenize (f + 1) (34 :: (raw ++ 34 :: s)) =
      (json.tokenize f s).map (fun t => json.Token.string str :: t) :=
  tokenize_cons f 34 _ _ s (by decide) (by
    have e2 : ¬ (34 : Byte).val = 123 := by decide
    have e3 : ¬ (34 : Byte).val = 125 := by decide
    have e4 : ¬ (34 : Byte).val = 91 := by decide
    have e5 : ¬ (34 : Byte).val = 93 := by decide
    have e6 : ¬ (34 : Byte).val = 58 := by decide
    have e7 : ¬ (34 : Byte).val = 44 := by decide
    have e8 : (34 : Byte).val = 34 := by decide
    simp only [json.scanToken, if_neg e2, if_neg e3, if_neg e4, if_neg e5, if_neg e6, if_neg e7,
      if_pos e8, hscan, hunq, Option.some_bind, Option.map_some'])

theorem scanString_closing (s : Bytes) : json.scanString (34 :: s) = some ([], s) := by
  rw [json.scanString.eq_def]; rfl

/-- A string written by `appendString` is read back as one string token,
holding the string coerced to valid UTF-8. -/
theorem tokenize_appendString (f : Nat) (U s : Bytes) :
    json.tokenize (f + 1) (json.appendString U ++ s) =
      (json.tokenize f s).map (fun t => json.Token.string (json.coerceUTF8 U) :: t) := by
  have h := tokenize_string f (json.appendStringAux U.length U) (json.coerceUTF8 U) s
    (by rw [scanString_appendStringAux, scanString_closing]; simp)
    (unquoteAux_appendStringAux U.length U _ (Nat.le_refl _))
  simpa [json.appendString] using h

theorem plain_base64 (b : Bytes) :
    ∀ c ∈ base64.EncodeToString b, c.val ≠ 34 ∧ c.val ≠ 92 ∧ 32 ≤ c.val ∧ c.val < 128 := by
  have henc : ∀ n, (base64.encodeStd n).val ≠ 34 ∧ (base64.encodeStd n).val ≠ 92 ∧
      32 ≤ (base64.encodeStd n).val ∧ (base64.encodeStd n).val < 128 := by
    intro n
    have h : ∀ m : Fin 64, (base64.encodeStd m.val).val ≠ 34 ∧
        (base64.encodeStd m.val).val ≠ 92 ∧
        32 ≤ (base64.encodeStd m.val).val ∧ (base64.encodeStd m.val).val < 128 := by decide
    have := h ⟨n % 64, Nat.mod_lt _ (by decide)⟩
    simpa [encodeStd_mod] using this
  have h61 : (61 : Byte).val ≠ 34 ∧ (61 : Byte).val ≠ 92 ∧ 32 ≤ (61 : Byte).val ∧
      (61 : Byte).val < 128 := by decide
  induction b using base64.EncodeToString.induct with
  | case1 => intro c hc; simp [base64.EncodeToString] at hc
  | case2 a =>
    intro c hc
    simp only [base64.EncodeToString, List.mem_cons, List.mem_singleton, List.mem_nil_iff,
      or_false] at hc
    rcases hc with rfl | rfl | rfl | rfl
    · exact henc _
    · exact henc _
    · exact h61
    · exact h61
  | case3 a b =>
    intro c hc
    simp only [base64.EncodeToString, List.mem_cons, List.mem_singleton, List.mem_nil_iff,
      or_false] at hc
    rcases hc with rfl | rfl | rfl | rfl
    · exact henc _
    · exact henc _
    · exact henc _
    · exact h61
  | case4 a b c rest ih =>
    intro x hx
    simp only [base64.EncodeToString, List.mem_cons] at hx
    rcases hx with rfl | rfl | rfl | rfl | hx
    · exact henc _
    · exact henc _
    · exact henc _
    · exact henc _
    · exact ih x hx

theorem unquoteAux_plain_list (raw : Bytes) (f : Nat) (hf : raw.length ≤ f)
    (h : ∀ c ∈ raw, c.val ≠ 34 ∧ c.val ≠ 92 ∧ 32 ≤ c.val ∧ c.val < 128) :
    json.unquoteAux f raw = some raw := by
  induction raw generalizing f with
  | nil => exact unquoteAux_nil f
  | cons c t ih =>
    obtain ⟨g, rfl⟩ : ∃ g, f = g + 1 := ⟨f - 1, by simp at hf; omega⟩
    have hc := h c (List.mem_cons_self _ _)
    rw [unquoteAux_plain g c t hc.1 hc.2.1 hc.2.2.1 hc.2.2.2,
      ih g (by simp at hf; omega) (fun x hx => h x (List.mem_cons_of_mem _ hx))]
    rfl

/-- What the encoder writes for a `[]byte` is read back as one token. -/
theorem tokenize_marshalBytes (f : Nat) (H : Option Bytes) (s : Bytes) :
    json.tokenize (f + 1) (json.marshalBytes H ++ s) =
      (json.tokenize f s).map (fun t =>
        (match H with
          | none => json.Token.null
          | some b => json.Token.string (base64.EncodeToString b)) :: t) := by
  cases H with
  | none => exact tokenize_null f s
  | some b =>
    have h := tokenize_string f (base64.EncodeToString b) (base64.EncodeToString b) s
      (by
        rw [scanString_plain_chunk _ _ (fun c hc => by
          have := plain_base64 b c hc; exact ⟨this.1, this.2.1, this.2.2.1⟩),
          scanString_closing]
        simp)
      (unquoteAux_plain_list _ _ (Nat.le_refl _) (plain_base64 b))
    simpa [json.marshalBytes] using h

theorem tokenize_number (f : Nat) (x : Int) (c : Byte) (r : Bytes)
    (hc : c.val = 44 ∨ c.val = 125) :
    json.tokenize (f + 1) (decimal x ++ c :: r) =
      (json.tokenize f (c :: r)).map (fun t => json.Token.number (decimal x) :: t) := by
  have hs := scanNumber_decimal x c r hc
  obtain ⟨d, ds, hd, hcase⟩ := decimal_head x
  rw [hd] at hs ⊢
  rw [List.cons_append] at hs ⊢
  have e1 : json.isSpace d = false := by
    simp only [json.isSpace, Bool.or_eq_false_iff, decide_eq_false_iff_not]
    omega
  have e2 : ¬ d.val = 123 := by omega
  have e3 : ¬ d.val = 125 := by omega
  have e4 : ¬ d.val = 91 := by omega
  have e5 : ¬ d.val = 93 := by omega
  have e6 : ¬ d.val = 58 := by omega
  have e7 : ¬ d.val = 44 := by omega
  have e8 : ¬ d.val = 34 := by omega
  have e9 : d.val = 45 ∨ json.isDigit d = true := by
    rcases hcase with h | h
    · exact Or.inl h
    · right
      simp only [json.isDigit, Bool.and_eq_true, decide_eq_true_eq]
      exact h
  exact tokenize_cons f d _ _ _ e1 (by
    simp only [json.scanToken, if_neg e2, if_neg e3, if_neg e4, if_neg e5, if_neg e6, if_neg e7,
      if_neg e8, if_pos e9, hs, Option.map_some'])

theorem tokenize_key (f : Nat) (k : Byte) (s : Bytes)
    (hk : k.val ≠ 34 ∧ k.val ≠ 92 ∧ 32 ≤ k.val ∧ k.val < 128) :
    json.tokenize (f + 1) (34 :: k :: 34 :: s) =
      (json.tokenize f s).map (fun t => json.Token.string [k] :: t) := by
  have h := tokenize_string f [k] [k] s
    (by rw [List.singleton_append, scanString_plain k _ hk.1 hk.2.1 hk.2.2.1,
          scanString_closing]; rfl)
    (unquoteAux_plain_list [k] 1 (Nat.le_refl _) (by simpa using hk))
  simpa using h

/-- The tokens of a marshalled cookie. -/
theorem tokenize_Marshal (c : SSOCookie) (f : Nat) :
    json.tokenize (f + 25) (json.Marshal c) = some
      [json.Token.beginObject,
       json.Token.string [82], json.Token.colon, json.Token.number (decimal c.R),
       json.Token.comma,
       json.Token.string [83], json.Token.colon, json.Token.number (decimal c.S),
       json.Token.comma,
       json.Token.string [72], json.Token.colon,
       (match c.H with
        | none => json.Token.null
        | some b => json.Token.string (base64.EncodeToString b)),
       json.Token.comma,
       json.Token.string [69], json.Token.colon, json.Token.number (decimal c.E),
       json.Token.comma,
       json.Token.string [80], json.Token.colon, json.Token.beginObject,
       json.Token.string [85], json.Token.colon,
       json.Token.string (json.coerceUTF8 c.P.U),
       json.Token.endObject, json.Token.endObject] := by
  have a1 : ascii "\x7b\"R\":" = [123, 34, 82, 34, 58] := by decide
  have a2 : ascii ",\"S\":" = [44, 34, 83, 34, 58] := by decide
  have a3 : ascii ",\"H\":" = [44, 34, 72, 34, 58] := by decide
  have a4 : ascii ",\"E\":" = [44, 34, 69, 34, 58] := by decide
  have a5 : ascii ",\"P\":\x7b\"U\":" = [44, 34, 80, 34, 58, 123, 34, 85, 34, 58] := by decide
  have a6 : ascii "\x7d\x7d" = [125, 125] := by decide
  simp only [json.Marshal, json.marshalBigInt, a1, a2, a3, a4, a5, a6, List.append_assoc,
    List.cons_append, List.nil_append]
  rw [tokenize_beginObject, tokenize_key _ _ _ (by decide), tokenize_colon,
    tokenize_number _ _ _ _ (Or.inl (by decide)), tokenize_comma,
    tokenize_key _ _ _ (by decide), tokenize_colon,
    tokenize_number _ _ _ _ (Or.inl (by decide)), tokenize_comma,
    tokenize_key _ _ _ (by decide), tokenize_colon,
    tokenize_marshalBytes, tokenize_comma,
    tokenize_key _ _ _ (by decide), tokenize_colon,
    tokenize_number _ _ _ _ (Or.inl (by decide)), tokenize_comma,
    tokenize_key _ _ _ (by decide), tokenize_colon, tokenize_beginObject,
    tokenize_key _ _ _ (by decide), tokenize_colon,
    tokenize_appendString, tokenize_endObject, tokenize_endObject, tokenize_nil]
  rfl

/-! ## The codec: decoding a marshalled cookie -/

theorem Marshal_length (c : SSOCookie) : 25 ≤ (json.Marshal c).length := by
  have a1 : (ascii "\x7b\"R\":").length = 5 := by decide
  have a2 : (ascii ",\"S\":").length = 5 := by decide
  have a3 : (ascii ",\"H\":").length = 5 := by decide
  have a4 : (ascii ",\"E\":").length = 5 := by decide
  have a5 : (ascii ",\"P\":\x7b\"U\":").length = 10 := by decide
  simp only [json.Marshal, List.length_append, a1, a2, a3, a4, a5]
  omega

/-- The JSON value a marshalled cookie denotes. -/
theorem parse_Marshal (c : SSOCookie) :
    json.parse (json.Marshal c) = some (json.Value.object
      [([82], json.Value.number (decimal c.R)),
       ([83], json.Value.number (decimal c.S)),
       ([72], match c.H with
          | none => json.Value.null
          | some b => json.Value.string (base64.EncodeToString b)),
       ([69], json.Value.number (decimal c.E)),
       ([80], json.Value.object [([85], json.Value.string (json.coerceUTF8 c.P.U))])]) := by
  obtain ⟨f, hf⟩ : ∃ f, (json.Marshal c).length = f + 25 :=
    ⟨(json.Marshal c).length - 25, by have := Marshal_length c; omega⟩
  unfold json.parse
  rw [hf, tokenize_Marshal]
  cases c.H <;> rfl

theorem decodeCookieMembers_Marshal (c : SSOCookie)
    (hlo : -2147483648 ≤ c.E) (hhi : c.E < 2147483648) :
    json.decodeCookieMembers SSOCookie.zero []
      [([82], json.Value.number (decimal c.R)),
       ([83], json.Value.number (decimal c.S)),
       ([72], match c.H with
          | none => json.Value.null
          | some b => json.Value.string (base64.EncodeToString b)),
       ([69], json.Value.number (decimal c.E)),
       ([80], json.Value.object [([85], json.Value.string (json.coerceUTF8 c.P.U))])] =
      Except.ok { c with P := { U := json.coerceUTF8 c.P.U } } := by
  have f1 : json.cookieField [82] = some json.Field.R := by decide
  have f2 : json.cookieField [83] = some json.Field.S := by decide
  have f3 : json.cookieField [72] = some json.Field.H := by decide
  have f4 : json.cookieField [69] = some json.Field.E := by decide
  have f5 : json.cookieField [80] = some json.Field.P := by decide
  have f6 : json.isKeyU [85] = true := by decide
  have hrange : -2147483648 ≤ c.E ∧ c.E < 2147483648 := ⟨hlo, hhi⟩
  have hH : json.decodeBytes SSOCookie.zero.H [] (match c.H with
      | none => json.Value.null
      | some b => json.Value.string (base64.EncodeToString b)) = Except.ok (c.H, []) := by
    cases c.H with
    | none => rfl
    | some b => simp only [json.decodeBytes, DecodeString_EncodeToString]
  simp only [json.decodeCookieMembers, json.decodeCookieMember, f1, f2, f3, f4, f5,
    json.decodeBigInt, json.decodeInt32, integerOfText_decimal, hrange, and_self, if_true, hH,
    json.decodePayload, json.decodePayloadMembers, f6, json.decodeString, Except.map]

/-- Decoding an encoded cookie (`json.Marshal` then `url.QueryEscape`, decoded
as `AuthHandler` does) gives the cookie back, with its username coerced to
valid UTF-8. -/
theorem decode_encode (c : SSOCookie) (hlo : -2147483648 ≤ c.E) (hhi : c.E < 2147483648) :
    AuthHandler.decode (url.QueryEscape (json.Marshal c)) =
      Except.ok (some { c with P := { U := json.coerceUTF8 c.P.U } }) := by
  unfold AuthHandler.decode json.Unmarshal
  simp only [QueryUnescape_QueryEscape, parse_Marshal, Option.getD_some,
    decodeCookieMembers_Marshal c hlo hhi]

/-! ### C7 -/

set_option maxRecDepth 100000 in
/-- C7, as stated, fails: the username consisting of the single byte `0xFF`
(not valid UTF-8) is written by `json.Marshal` as `\ufffd`, so the token
decoded from the encoded token has the username `EF BF BD` (U+FFFD). -/
theorem C7_counterexample :
    AuthHandler.decode (url.QueryEscape (json.Marshal
        { R := 1, S := 2, H := none, E := 3, P := { U := [255] } })) =
      Except.ok (some { R := 1, S := 2, H := none, E := 3, P := { U := [239, 191, 189] } }) ∧
    ([255] : Bytes) ≠ [239, 191, 189] := by
  decide

/-- C7 (amended): for every token `t` with `E` in the range of `int32` (any
username, any integers `R` and `S`, any `H`), decoding the encoded token, as
`AuthHandler` and `CreateCookie` do, succeeds and yields a non-nil token with
the same `E`, `R`, `S` (and `H`), and with the username in which every byte that
starts no well-formed UTF-8 sequence is replaced by U+FFFD; a username that is
valid UTF-8 comes back unchanged. -/
theorem C7_codec_round_trip (t : SSOCookie) (hlo : -2147483648 ≤ t.E)
    (hhi : t.E < 2147483648) :
    (∃ t' : SSOCookie,
      AuthHandler.decode (url.QueryEscape (json.Marshal t)) = Except.ok (some t') ∧
      t'.E = t.E ∧ t'.R = t.R ∧ t'.S = t.S ∧ t'.H = t.H ∧
      t'.P.U = json.coerceUTF8 t.P.U) ∧
    (utf8.Valid t.P.U = true → json.coerceUTF8 t.P.U = t.P.U) ∧
    (utf8.Valid t.P.U = true →
      AuthHandler.decode (url.QueryEscape (json.Marshal t)) = Except.ok (some t)) := by
  have hv : utf8.Valid t.P.U = true → json.coerceUTF8 t.P.U = t.P.U :=
    fun h => coerceAux_valid _ _ (Nat.le_refl _) h
  refine ⟨⟨_, decode_encode t hlo hhi, rfl, rfl, rfl, rfl, rfl⟩, hv, ?_⟩
  intro h
  rw [decode_encode t hlo hhi, hv h]

set_option maxRecDepth 100000 in
/-- C7 (amended) at a concrete input: the token `CreateCookie` issues for the
username `jg123456` decodes to itself. -/
theorem C7_codec_round_trip_witness :
    (-2147483648 : Int) ≤ (CreateCookie.sso_cookie demoPrimitives 1700000000 0
        (ascii "203.0.113.5") { U := ascii "jg123456" } demoConfig).E ∧
    utf8.Valid (ascii "jg123456") = true ∧
    AuthHandler.decode (CreateCookie demoPrimitives 1700000000 0 (ascii "203.0.113.5")
        { U := ascii "jg123456" } demoConfig) =
      Except.ok (some (CreateCookie.sso_cookie demoPrimitives 1700000000 0
        (ascii "203.0.113.5") { U := ascii "jg123456" } demoConfig)) :=
  ⟨by decide, by decide,
   (C7_codec_round_trip (CreateCookie.sso_cookie demoPrimitives 1700000000 0
      (ascii "203.0.113.5") { U := ascii "jg123456" } demoConfig)
      (by decide) (by decide)).2.2 (by decide)⟩

/-! ## `AuthHandler` -/

theorem QueryUnescape_error_empty (s : Bytes) (h : (url.QueryUnescape s).2 ≠ none) :
    (url.QueryUnescape s).1 = [] := by
  unfold url.QueryUnescape at h ⊢
  split
  · rename_i hv; simp [hv] at h
  · rfl

theorem Unmarshal_empty (p : Option SSOCookie) :
    json.Unmarshal [] p = Except.error json.Error.syntaxError := rfl

/-! ### C8 -/

/-- C8: the decision table of `/auth`. The response is 401 and `VerifyCookie`
is not called when the cookie `sso` is absent, when the configured IP header
is absent or empty, when the cookie value fails percent-decoding, or when JSON
decoding fails. Otherwise `VerifyCookie` is called once, with the ip and the
decoded token; the response is 200 exactly when it returns true, and then
carries `Remote-User = token.P.U` and `Remote-Expiry = decimal(token.E)`; the
response is 401 when it returns false. -/
theorem C8_auth_decision_table (prim : Primitives) (config : SSOConfig) (now : Int)
    (r : Request) :
    (r.Cookie (ascii "sso") = none →
      (AuthHandler prim config now r).verifyCalls = [] ∧
      (AuthHandler prim config now r).status = some 401) ∧
    (r.HeaderGet config.IPHeader = [] →
      (AuthHandler prim config now r).verifyCalls = [] ∧
      (AuthHandler prim config now r).status = some 401) ∧
    (∀ v : Bytes, r.Cookie (ascii "sso") = some v → (url.QueryUnescape v).2 ≠ none →
      (AuthHandler prim config now r).verifyCalls = [] ∧
      (AuthHandler prim config now r).status = some 401) ∧
    (∀ (v : Bytes) (e : json.Error), r.Cookie (ascii "sso") = some v →
      json.Unmarshal (url.QueryUnescape v).1 (some SSOCookie.zero) = Except.error e →
      (AuthHandler prim config now r).verifyCalls = [] ∧
      (AuthHandler prim config now r).status = some 401) ∧
    (∀ (v : Bytes) (tok : Option SSOCookie), r.Cookie (ascii "sso") = some v →
      r.HeaderGet config.IPHeader ≠ [] →
      json.Unmarshal (url.QueryUnescape v).1 (some SSOCookie.zero) = Except.ok tok →
      (AuthHandler prim config now r).verifyCalls = [(r.HeaderGet config.IPHeader, tok)] ∧
      ((AuthHandler prim config now r).status = some 200 ↔
        VerifyCookie prim now (r.HeaderGet config.IPHeader) tok config = Run.ret true) ∧
      (VerifyCookie prim now (r.HeaderGet config.IPHeader) tok config = Run.ret true →
        ∃ c : SSOCookie, tok = some c ∧
          (AuthHandler prim config now r).outcome = Run.ret
            { status := 200,
              header := [(ascii "Remote-User", c.P.U), (ascii "Remote-Expiry", decimal c.E)],
              body := ascii "Authorized!\n" }) ∧
      (VerifyCookie prim now (r.HeaderGet config.IPHeader) tok config = Run.ret false →
        (AuthHandler prim config now r).status = some 401)) := by
  have hfail : ∀ v : Bytes, r.Cookie (ascii "sso") = some v →
      (∃ e, AuthHandler.decode v = Except.error e) →
      (AuthHandler prim config now r).verifyCalls = [] ∧
      (AuthHandler prim config now r).status = some 401 := by
    intro v hv ⟨e, he⟩
    unfold AuthHandler
    simp only [hv]
    by_cases hip : r.HeaderGet config.IPHeader = []
    · simp [hip, HandlerRun.status, httpError, StatusUnauthorized]
    · simp [hip, he, HandlerRun.status, httpError, StatusUnauthorized]
  refine ⟨?_, ?_, ?_, ?_, ?_⟩
  · intro h
    unfold AuthHandler
    simp [h, HandlerRun.status, httpError, StatusUnauthorized]
  · intro h
    unfold AuthHandler
    cases hc : r.Cookie (ascii "sso") <;>
      simp [h, HandlerRun.status, httpError, StatusUnauthorized]
  · intro v hv herr
    refine hfail v hv ⟨json.Error.syntaxError, ?_⟩
    unfold AuthHandler.decode
    simp only [QueryUnescape_error_empty v herr, Unmarshal_empty]
  · intro v e hv he
    exact hfail v hv ⟨e, he⟩
  · intro v tok hv hip hdec
    have hdec2 : AuthHandler.decode v = Except.ok tok := hdec
    unfold AuthHandler
    simp only [hv, hip, if_false, hdec2]
    cases tok with
    | none => simp [VerifyCookie, HandlerRun.status]
    | some c =>
      cases hver : VerifyCookie prim now (r.HeaderGet config.IPHeader) (some c) config with
      | panic => simp [HandlerRun.status]
      | ret b =>
        cases b <;> simp [HandlerRun.status, httpError, StatusUnauthorized]

set_option maxRecDepth 100000 in
/-- C8 at concrete inputs: a request without the IP header is answered 401
without a call of `VerifyCookie`; the cookie issued by `CreateCookie` for
`203.0.113.5`, presented from that address while it is fresh, is answered 200
with `Remote-User: jg123456` and `Remote-Expiry: 1700000010`. -/
theorem C8_auth_decision_table_witness :
    ((AuthHandler demoPrimitives demoConfig 1700000000
        (demoRequest (some (ascii "null")) [])).verifyCalls = [] ∧
      (AuthHandler demoPrimitives demoConfig 1700000000
        (demoRequest (some (ascii "null")) [])).status = some 401) ∧
    (AuthHandler demoPrimitives demoConfig 1700000000
        (demoRequest (some (CreateCookie demoPrimitives 1700000000 0 (ascii "203.0.113.5")
          { U := ascii "jg123456" } demoConfig)) (ascii "203.0.113.5"))).outcome =
      Run.ret
        { status := 200,
          header := [(ascii "Remote-User", ascii "jg123456"),
                     (ascii "Remote-Expiry", ascii "1700000010")],
          body := ascii "Authorized!\n" } :=
  ⟨(C8_auth_decision_table demoPrimitives demoConfig 1700000000
      (demoRequest (some (ascii "null")) [])).2.1 (by decide),
   by decide⟩

/-! ### C9 -/

/-- C9, evaluated on the code: a request whose cookie `sso` has the value
`null` and whose IP header is not empty makes the handler panic. Percent-decoding
and `json.Unmarshal` succeed and leave the pointer `sso_cookie` nil;
`VerifyCookie` is called with it and dereferences it, whatever the primitives,
the time and the keys are. (Unknown and missing fields do behave as C9 says:
the values `{"X":1}` and `{}` decode to a non-nil cookie with zero fields. The
decoded pointer is nil exactly when the JSON text is `null`.) -/
theorem C9_null_cookie_nil_dereference (prim : Primitives) (config : SSOConfig) (now : Int)
    (r : Request)
    (hc : r.Cookie (ascii "sso") = some (ascii "null"))
    (hip : r.HeaderGet config.IPHeader ≠ []) :
    AuthHandler.decode (ascii "null") = Except.ok none ∧
    (AuthHandler prim config now r).verifyCalls = [(r.HeaderGet config.IPHeader, none)] ∧
    VerifyCookie prim now (r.HeaderGet config.IPHeader) none config = Run.panic ∧
    (AuthHandler prim config now r).outcome = Run.panic ∧
    AuthHandler.decode (ascii "\x7b\"X\":1\x7d") = Except.ok (some SSOCookie.zero) ∧
    AuthHandler.decode (ascii "\x7b\x7d") = Except.ok (some SSOCookie.zero) ∧
    (∀ v : Bytes, AuthHandler.decode v = Except.ok none ↔
      json.parse (url.QueryUnescape v).1 = some json.Value.null) := by
  have h : AuthHandler.decode (ascii "null") = Except.ok none := by decide
  refine ⟨h, ?_, rfl, ?_, by decide, by decide, ?_⟩
  · unfold AuthHandler
    simp only [hc, hip, if_false, h, VerifyCookie]
  · unfold AuthHandler
    simp only [hc, hip, if_false, h, VerifyCookie]
  · intro v
    unfold AuthHandler.decode json.Unmarshal
    cases hp : json.parse (url.QueryUnescape v).1 with
    | none => simp [hp]
    | some val =>
      cases val with
      | null => simp [hp]
      | object ms =>
        simp only [hp]
        cases json.decodeCookieMembers ((some SSOCookie.zero).getD SSOCookie.zero) [] ms <;> simp
      | _ => simp [hp]

/-- C9 at a concrete input: the request with `X-Real-Ip: 203.0.113.5` and the
cookie `sso=null` makes `AuthHandler` panic. -/
theorem C9_null_cookie_nil_dereference_witness :
    (demoRequest (some (ascii "null")) (ascii "203.0.113.5")).Cookie (ascii "sso") =
      some (ascii "null") ∧
    (demoRequest (some (ascii "null")) (ascii "203.0.113.5")).HeaderGet demoConfig.IPHeader ≠
      [] ∧
    (AuthHandler demoPrimitives demoConfig 1700000000
      (demoRequest (some (ascii "null")) (ascii "203.0.113.5"))).outcome = Run.panic :=
  ⟨by decide, by decide,
   (C9_null_cookie_nil_dereference demoPrimitives demoConfig 1700000000
      (demoRequest (some (ascii "null")) (ascii "203.0.113.5")) (by decide) (by decide)).2.2.2.1⟩

end NginxSSO
